import Mathlib

/-!
Shallow embedding of the agentkit local agent platform (`platforms/local`)
and its MCP front-end (`mcp`), together with theorems settling the
specification's claims about path sandboxing, the agent loop, the
orchestrator, the shell/file tools and the protocol read loop.

Machine details that are irrelevant to every claim (contexts, goroutine
scheduling, JSON byte encoding) are modelled by explicit state passing,
oracles passed as function arguments, or abstract payload strings; all
control flow and all data shapes follow the Go source.
-/

namespace AgentKit

namespace Filepath

/-! ## Go `path/filepath` (Unix rules), as used by the workspace sandbox

A Go string is modelled by its character list.  `filepath.Clean` is the
classic lexical element machine: it walks the slash-separated elements of
the path, drops empty and `.` elements, and resolves `..` against the
elements already emitted (a `..` at the root of a rooted path vanishes; a
leading `..` of a relative path is kept). -/

/-- Go `filepath.IsAbs` on Unix: `strings.HasPrefix(path, "/")`. -/
def IsAbs (p : String) : Bool := p.toList.head? == some '/'

/-- Go `strings.HasPrefix`. -/
def hasPrefixStr (s pre : String) : Bool := pre.toList.isPrefixOf s.toList

/-- The slash-separated fields of a character list, empty fields kept (the
byte scan between separator bytes). -/
def splitSlash : List Char → List (List Char)
  | [] => [[]]
  | c :: rest =>
    if c = '/' then [] :: splitSlash rest
    else
      match splitSlash rest with
      | f :: fs => (c :: f) :: fs
      | [] => [[c]]

/-- The path elements `filepath.Clean` processes: the slash-separated fields
with empty and `.` fields dropped. -/
def fields (l : List Char) : List (List Char) :=
  (splitSlash l).filter (fun f => f != [] && f != ['.'])

/-- The `Clean` element machine; `acc` holds the already-emitted elements in
reverse.  A `..` pops a normal element, disappears at the root of a rooted
path, and is kept (stacked) in a relative path; every other element is
pushed. -/
def cleanCore (rooted : Bool) (acc : List (List Char)) : List (List Char) → List (List Char)
  | [] => acc.reverse
  | f :: rest =>
    if f = ['.', '.'] then
      match acc with
      | a :: tl =>
        if a = ['.', '.'] then cleanCore rooted (f :: a :: tl) rest
        else cleanCore rooted tl rest
      | [] => if rooted then cleanCore rooted [] rest else cleanCore rooted [f] rest
    else cleanCore rooted (f :: acc) rest

/-- Rebuild a path from elements, `/`-separated. -/
def joinComps : List (List Char) → List Char
  | [] => []
  | [f] => f
  | f :: rest => f ++ '/' :: joinComps rest

/-- Go `filepath.Clean` (Unix): the shortest lexically equivalent path; the
empty relative result is `.`, a rooted result keeps its leading `/`. -/
def Clean (p : String) : String :=
  let cs := cleanCore (IsAbs p) [] (fields p.toList)
  if IsAbs p then ('/' :: joinComps cs).asString
  else if cs = [] then "." else (joinComps cs).asString

/-- Go `filepath.Join` on two elements: leading empty elements are skipped
and the joined path is cleaned. -/
def Join (a b : String) : String :=
  if a ≠ "" then Clean (a ++ "/" ++ b)
  else if b ≠ "" then Clean b
  else ""

/-- Go `filepath.Abs`: an absolute path is cleaned, a relative one is joined
onto the process working directory `cwd` (from `os.Getwd`, modelled as an
argument). -/
def Abs (cwd p : String) : String :=
  if IsAbs p then Clean p else Join cwd p

/-- The common-prefix scan of `filepath.Rel`: strip the longest shared run
of leading equal elements from base and target. -/
def dropCommon : List (List Char) → List (List Char) → List (List Char) × List (List Char)
  | b :: bs, t :: ts =>
    if b = t then dropCommon bs ts else (b :: bs, t :: ts)
  | bs, ts => (bs, ts)

/-- Go `filepath.Rel` (Unix, no volume names).  Both paths are cleaned;
equal paths give `.`; mixing absolute with relative fails; otherwise the
common element prefix is stripped, every remaining base element turns into
one `..` step (failing if the remaining base itself starts with `..`), and
the remaining target elements follow. -/
def Rel (basepath targpath : String) : Option String :=
  let base := Clean basepath
  let targ := Clean targpath
  if targ = base then some "."
  else if (IsAbs base) != (IsAbs targ) then none
  else
    let rems := dropCommon (fields base.toList) (fields targ.toList)
    if rems.1.head? = some ['.', '.'] then none
    else some (joinComps (rems.1.map (fun _ => ['.', '.']) ++ rems.2)).asString

/-- A path element as emitted by `fields`: non-empty, not `.`, slash-free. -/
def Good (f : List Char) : Prop := f ≠ [] ∧ f ≠ ['.'] ∧ '/' ∉ f

/-- The rejection condition of the sandbox, phrased on element lists: the
target escapes the root, or its first element below the root itself begins
with the two characters `..`. -/
def escapeFlag (W X : List (List Char)) : Bool :=
  if W.isPrefixOf X then
    match X.drop W.length with
    | [] => false
    | c :: _ => ['.', '.'].isPrefixOf c
  else true

end Filepath

/-! ## Workspace sandbox (`platforms/local/tools.go`) -/

/-- The `ToolSet` of `tools.go`: filesystem and shell tools scoped to a
workspace root. -/
structure ToolSet where
  workspace : String
  maxFileSize : Int

/-- `NewToolSet`: fresh tool set with the 10 MB default read ceiling. -/
def NewToolSet (workspace : String) : ToolSet :=
  { workspace := workspace, maxFileSize := 10 * 1024 * 1024 }

/-- `SetMaxFileSize`. -/
def ToolSet.SetMaxFileSize (ts : ToolSet) (size : Int) : ToolSet :=
  { ts with maxFileSize := size }

/-- `validatePath`: relative paths are joined onto the workspace, the result
is made absolute and cleaned, and the path is rejected when its form
relative to the workspace starts with `..`.  `cwd` is the process working
directory that `filepath.Abs` would consult. -/
def ToolSet.validatePath (ts : ToolSet) (cwd path : String) : Except String String :=
  let path1 := if !(Filepath.IsAbs path) then Filepath.Join ts.workspace path else path
  let absPath := Filepath.Abs cwd path1
  match Filepath.Rel ts.workspace absPath with
  | none => Except.error "path outside workspace"
  | some relPath =>
    if Filepath.hasPrefixStr relPath ".." then
      Except.error ("path outside workspace: " ++ path1)
    else Except.ok absPath

/-- Spec-side notion: the canonical absolute form of `p` resolved against
the root — exactly the `absPath` the sandbox computes. -/
def resolvedTarget (root cwd p : String) : String :=
  Filepath.Abs cwd (if !(Filepath.IsAbs p) then Filepath.Join root p else p)

/-- The path elements of the canonicalized root. -/
def rootFields (root : String) : List (List Char) :=
  Filepath.fields (Filepath.Clean root).toList

/-- Spec-side notion: the resolved form of `p` is a descendant of (or equal
to) the root. -/
def underRoot (root cwd p : String) : Bool :=
  (rootFields root).isPrefixOf (Filepath.fields (resolvedTarget root cwd p).toList)

/-- Spec-side notion: strictly inside the root — a proper descendant. -/
def strictlyInsideRoot (root cwd p : String) : Bool :=
  underRoot root cwd p && (resolvedTarget root cwd p != Filepath.Clean root)

/-- The first path element of the resolved target below the root, when there
is one, begins with the two characters `..`. -/
def firstElemBelowRootDotDot (root cwd p : String) : Bool :=
  match (Filepath.fields (resolvedTarget root cwd p).toList).drop
      (rootFields root).length with
  | [] => false
  | c :: _ => ['.', '.'].isPrefixOf c

/-- The sandbox's rejection condition, at the original inputs: the resolved
target escapes the root, or its first element below the root begins with
`..`. -/
def escapeFlagAt (root cwd p : String) : Bool :=
  if underRoot root cwd p then firstElemBelowRootDotDot root cwd p else true

/-! ## Embedded agent (`platforms/local/agent.go`)

`context.Context` carries no information the claims depend on and is
dropped.  A tool's `Execute` returns `(any, error)` whose success payload is
then JSON-marshalled; the model lets `execute` return the marshalled string
directly.  `LLMClient.Complete` is the injected dependency: a function from
the message history and tool definitions to a response or an error. -/

/-- A chat `Message`. -/
structure Message where
  role : String
  content : String
  name : String := ""
  toolID : String := ""
deriving DecidableEq, Repr

/-- A `ToolDefinition` handed to the LLM.  The JSON-schema parameter table
(`getToolParameters`) is static data no claim depends on; only the name and
description are carried. -/
structure ToolDefinition where
  name : String
  description : String
deriving DecidableEq, Repr

/-- Tool-call arguments (`map[string]any`), modelled as key/value pairs with
string payloads. -/
abbrev ToolArgs := List (String × String)

/-- An LLM `ToolCall`. -/
structure ToolCall where
  id : String
  name : String
  arguments : ToolArgs
deriving DecidableEq, Repr

/-- A `CompletionResponse`. -/
structure CompletionResponse where
  content : String
  toolCalls : List ToolCall
  done : Bool
deriving DecidableEq, Repr

/-- An `AgentResult`: the terminal artifact of one agent invocation. -/
structure AgentResult where
  agent : String
  input : String
  output : String
  success : Bool
  error : String := ""
deriving DecidableEq, Repr

/-- A capability object (`Tool` interface): name, description, and an
executable body returning the marshalled result or an error. -/
structure ToolImpl where
  name : String
  description : String
  execute : ToolArgs → Except String String

/-- An `EmbeddedAgent`; `llm` is the injected `LLMClient.Complete`. -/
structure EmbeddedAgent where
  name : String
  description : String
  instructions : String
  tools : List ToolImpl
  llm : List Message → List ToolDefinition → Except String CompletionResponse
  maxTokens : Nat

/-- `buildToolDefinitions`. -/
def buildToolDefinitions (a : EmbeddedAgent) : List ToolDefinition :=
  a.tools.map (fun t => { name := t.name, description := t.description })

/-- `executeTool`: first tool whose name matches; unknown names are an
error. -/
def executeTool (a : EmbeddedAgent) (tc : ToolCall) : Except String String :=
  match a.tools.find? (fun t => t.name == tc.name) with
  | some t => t.execute tc.arguments
  | none => Except.error ("unknown tool: " ++ tc.name)

/-- The `tool`-role message appended for one tool call: the marshalled
result, or the stringified error (`fmt.Sprintf("Error: %v", err)`),
correlated by the call's id. -/
def toolResultMessage (tc : ToolCall) (r : Except String String) : Message :=
  { role := "tool",
    content := match r with
      | Except.error e => "Error: " ++ e
      | Except.ok s => s,
    name := tc.name,
    toolID := tc.id }

/-- The iteration ceiling of the agent loop (`maxIterations` in `Invoke`). -/
def maxIterations : Nat := 10

/-- One invocation of the agent loop, with `fuel` remaining iterations.
Returns the Go `(result, error)` pair together with the number of
`Complete` calls made (the instrumentation is inert: `invoke` below drops
it).  Fuel `0` is the ceiling fall-through: a failure `AgentResult`, not an
error. -/
def invokeLoop (a : EmbeddedAgent) (input : String) (toolDefs : List ToolDefinition) :
    List Message → Nat → Except String AgentResult × Nat
  | _, 0 =>
    (Except.ok { agent := a.name, input := input, output := "Max iterations reached",
                 success := false, error := "agent loop exceeded maximum iterations" }, 0)
  | msgs, n + 1 =>
    match a.llm msgs toolDefs with
    | Except.error e => (Except.error ("LLM completion failed: " ++ e), 1)
    | Except.ok resp =>
      if resp.toolCalls.isEmpty || resp.done then
        (Except.ok { agent := a.name, input := input, output := resp.content,
                     success := true }, 1)
      else
        let msgs2 := (msgs ++ [{ role := "assistant", content := resp.content }])
          ++ resp.toolCalls.map (fun tc => toolResultMessage tc (executeTool a tc))
        let r := invokeLoop a input toolDefs msgs2 n
        (r.1, r.2 + 1)

/-- `EmbeddedAgent.Invoke`: seed the history with the system instructions
and the user input, then run the loop up to `maxIterations` rounds. -/
def invoke (a : EmbeddedAgent) (input : String) : Except String AgentResult :=
  (invokeLoop a input (buildToolDefinitions a)
    [{ role := "system", content := a.instructions },
     { role := "user", content := input }] maxIterations).1

/-- Number of `LLMClient.Complete` calls made by `invoke`. -/
def invokeCallCount (a : EmbeddedAgent) (input : String) : Nat :=
  (invokeLoop a input (buildToolDefinitions a)
    [{ role := "system", content := a.instructions },
     { role := "user", content := input }] maxIterations).2

/-! ## Orchestrator (`platforms/local/runner.go`)

The runner's read/write lock guards a registry that is fully built before
serving; the registry is the association list `agents`.  Each parallel
goroutine writes only its own pre-allocated slot; `invokeParallelSched`
makes that explicit by executing slot writes in an arbitrary completion
order. -/

/-- The `Runner`: a name-keyed registry of embedded agents. -/
structure Runner where
  agents : List (String × EmbeddedAgent)

/-- A well-formed registry as built by `NewRunner`, which stores each agent
under its own configured name (`runner.agents[agentCfg.Name] = agent`). -/
def Runner.WellFormed (r : Runner) : Prop :=
  ∀ pr ∈ r.agents, (pr.2).name = pr.1

/-- `Runner.Invoke`: look the agent up, run it, wrap loop-level error
returns. -/
def Runner.invoke (r : Runner) (agentName input : String) : Except String AgentResult :=
  match r.agents.lookup agentName with
  | none => Except.error ("agent not found: " ++ agentName)
  | some a =>
    match AgentKit.invoke a input with
    | Except.error e => Except.error ("agent invocation failed: " ++ e)
    | Except.ok result => Except.ok result

/-- An `AgentTask`. -/
structure AgentTask where
  agent : String
  input : String
deriving DecidableEq, Repr

/-- The value a parallel worker stores in its slot: the agent's result, or a
failed `AgentResult` capturing the per-task error. -/
def taskResult (r : Runner) (t : AgentTask) : AgentResult :=
  match r.invoke t.agent t.input with
  | Except.error e =>
    { agent := t.agent, input := t.input, output := "", success := false, error := e }
  | Except.ok res => res

/-- `Runner.InvokeParallel`: an empty batch returns `nil, nil`; otherwise
every slot is pre-allocated by index and filled independently, and the
batch itself never fails. -/
def Runner.invokeParallel (r : Runner) (tasks : List AgentTask) :
    Except String (List AgentResult) :=
  if tasks = [] then Except.ok []
  else Except.ok (tasks.map (taskResult r))

/-- The parallel batch executed under an explicit completion order: slots
start unfilled and each index in `order` stores its own task's result
(goroutine `idx` writes only `results[idx]`). -/
def invokeParallelSched (r : Runner) (tasks : List AgentTask) (order : List Nat) :
    List (Option AgentResult) :=
  order.foldl
    (fun slots i =>
      match tasks.get? i with
      | some t => slots.set i (some (taskResult r t))
      | none => slots)
    (List.replicate tasks.length none)

/-- One step of `InvokeSequential`, instrumented with the context value at
dispatch and the effective input handed to `Runner.Invoke`. -/
structure SeqStep where
  task : AgentTask
  ctx : String
  input : String
  result : AgentResult
deriving DecidableEq, Repr

/-- The body of `Runner.InvokeSequential`: `i` is the loop index and `ctxB`
the accumulated context; a non-empty context on a non-first task wraps the
task input in the `Previous context` form; a failure becomes a failed
`AgentResult` and leaves the context unchanged; a success appends its
`\n[agent]: output\n` entry. -/
def seqLoop (r : Runner) : List AgentTask → Nat → String → List SeqStep
  | [], _, _ => []
  | t :: rest, i, ctxB =>
    let input := if ctxB ≠ "" ∧ 0 < i then
        "Previous context:\n" ++ ctxB ++ "\n\nCurrent task:\n" ++ t.input
      else t.input
    let result := match r.invoke t.agent input with
      | Except.error e =>
        { agent := t.agent, input := t.input, output := "",
          success := false, error := e }
      | Except.ok res => res
    let ctxB2 := if result.success then
        ctxB ++ "\n[" ++ t.agent ++ "]: " ++ result.output ++ "\n"
      else ctxB
    { task := t, ctx := ctxB, input := input, result := result } :: seqLoop r rest (i + 1) ctxB2

/-- `Runner.InvokeSequential`: an empty batch returns `nil, nil`; otherwise
the recorded results of the sequential loop, which never fails as a
batch. -/
def Runner.invokeSequential (r : Runner) (tasks : List AgentTask) :
    Except String (List AgentResult) :=
  if tasks = [] then Except.ok []
  else Except.ok ((seqLoop r tasks 0 "").map (fun st => st.result))

/-- The concatenation of the `\n[agent]: output\n` entries of the successful
steps, in order — the provenance of the accumulated context block. -/
def successContext : List SeqStep → String
  | [] => ""
  | st :: rest =>
    (if st.result.success then
        "\n[" ++ st.task.agent ++ "]: " ++ st.result.output ++ "\n"
      else "") ++ successContext rest

/-! ## Shell execution and file reads (`tools.go`)

Process execution is an oracle `ExecEnv` mapping the command, its argument
vector and the working directory the `exec.Cmd` was given to an outcome:
either the process could not be started (any non-`ExitError` failure of
`cmd.Run`), or it ran to completion with an exit status and captured
stdout/stderr.  The filesystem is an oracle from absolute cleaned paths to
entries. -/

/-- Outcome of `cmd.Run`. -/
inductive ProcOutcome where
  | startFailure (msg : String)
  | exited (code : Int) (stdout stderr : String)

/-- The process-execution oracle: command, args, working directory. -/
abbrev ExecEnv := String → List String → String → ProcOutcome

/-- A `CommandResult`. -/
structure CommandResult where
  command : String
  args : List String
  stdout : String
  stderr : String
  exitCode : Int
deriving DecidableEq, Repr

/-- `CommandResult.Success`. -/
def CommandResult.success (r : CommandResult) : Bool := r.exitCode == 0

/-- `ToolSet.RunCommand`: the command runs with `cmd.Dir = ts.workspace`;
a non-zero exit lands in `ExitCode` (the result starts at `0` and is
overwritten from the `ExitError`), any other `cmd.Run` failure is an
error. -/
def ToolSet.RunCommand (env : ExecEnv) (ts : ToolSet) (command : String)
    (args : List String) : Except String CommandResult :=
  match env command args ts.workspace with
  | ProcOutcome.startFailure msg =>
    Except.error ("command execution failed: " ++ msg)
  | ProcOutcome.exited code out err =>
    Except.ok { command := command, args := args, stdout := out, stderr := err,
                exitCode := code }

/-- `ToolSet.RunShell`: `sh -c` execution of a command line. -/
def ToolSet.RunShell (env : ExecEnv) (ts : ToolSet) (shellCmd : String) :
    Except String CommandResult :=
  ts.RunCommand env "sh" ["-c", shellCmd]

/-- A filesystem entry: a directory, or a regular file with contents (the
Go `info.Size()` of a file is the length of its contents). -/
inductive FSEntry where
  | dir
  | file (content : String)

/-- The filesystem oracle consulted by `os.Stat` / `os.ReadFile`, keyed by
absolute path. -/
abbrev FileSystem := String → Option FSEntry

/-- `ToolSet.ReadFile`: validate the path, fail on missing entries and
directories, fail on files over `maxFileSize` without returning content,
otherwise return the whole content. -/
def ToolSet.ReadFile (fs : FileSystem) (ts : ToolSet) (cwd path : String) :
    Except String String :=
  match ts.validatePath cwd path with
  | Except.error e => Except.error e
  | Except.ok absPath =>
    match fs absPath with
    | none => Except.error "cannot access file"
    | some FSEntry.dir => Except.error ("path is a directory: " ++ path)
    | some (FSEntry.file content) =>
      if (content.length : Int) > ts.maxFileSize then
        Except.error ("file too large: " ++ toString content.length ++
          " bytes (max " ++ toString ts.maxFileSize ++ ")")
      else Except.ok content

/-! ## MCP protocol server (`mcp/server.go`, `mcp/protocol.go`)

The stdio transport delivers a list of lines; JSON decoding of a line is an
oracle `decode` (its error value is the text of the `json.Unmarshal`
failure).  `id` and `params` are raw JSON fragments, modelled as optional
strings.  `tools/call` reaches the runner and the filesystem, so its
handler is an oracle carried by the server model; every other handler is
transcribed.  Response writing collects the responses in order (a
`writeResponse` transport failure is logged and ignored by the source). -/

/-- A JSON-RPC request. -/
structure Request where
  jsonrpc : String
  id : Option String := none
  method : String
  params : Option String := none
deriving DecidableEq, Repr

/-- A JSON-RPC error object. -/
structure ErrorResponse where
  code : Int
  message : String
  data : Option String := none
deriving DecidableEq, Repr

/-- `ServerInfo`. -/
structure ServerInfo where
  name : String
  version : String
deriving DecidableEq, Repr

/-- `Capabilities`: presence of the (empty) `ToolsCapability` object. -/
structure Capabilities where
  tools : Bool
deriving DecidableEq, Repr

/-- The result payload of `initialize`. -/
structure InitResult where
  protocolVersion : String
  capabilities : Capabilities
  serverInfo : ServerInfo
deriving DecidableEq, Repr

/-- A JSON-schema property of a tool input. -/
structure SchemaProperty where
  type : String
  description : String
  enum : List String := []
deriving DecidableEq, Repr

/-- A tool's input schema. -/
structure InputSchema where
  type : String
  properties : List (String × SchemaProperty) := []
  required : List String := []
deriving DecidableEq, Repr

/-- A `ToolInfo` catalog entry. -/
structure ToolInfo where
  name : String
  description : String
  inputSchema : InputSchema
deriving DecidableEq, Repr

/-- A result payload. -/
inductive ResultVal where
  | initRes (r : InitResult)
  | toolsList (tools : List ToolInfo)
  | resourcesList
  | promptsList
  | callTool (payload : String)
deriving DecidableEq, Repr

/-- A JSON-RPC response. -/
structure Response where
  jsonrpc : String
  id : Option String := none
  result : Option ResultVal := none
  error : Option ErrorResponse := none
deriving DecidableEq, Repr

/-- Standard JSON-RPC error codes (`protocol.go`). -/
def ErrParseErrorCode : Int := -32700

def ErrMethodNotFoundCode : Int := -32601

/-- `ProtocolVersion`. -/
def ProtocolVersionStr : String := "2024-11-05"

/-- The MCP server: the runner it fronts, its identity, the
initialized flag, and the `tools/call` oracle (that handler reaches agents
and the filesystem). -/
structure Server where
  runner : Runner
  serverInfo : ServerInfo
  initDone : Bool := false
  toolsCall : Request → Response

/-- `Runner.ListAgents` (Go map iteration order is indeterminate; the model
uses registration order). -/
def Runner.listAgents (r : Runner) : List String :=
  r.agents.map (fun pr => pr.1)

/-- `errorResponse`. -/
def errorResponse (id : Option String) (code : Int) (message : String)
    (data : Option String) : Response :=
  { jsonrpc := "2.0", id := id, result := none,
    error := some { code := code, message := message, data := data } }

/-- The `tools/list` catalog: three orchestration tools then the four direct
sandbox tools, with their static schemas (`handleToolsList`). -/
def toolCatalog (r : Runner) : List ToolInfo :=
  [{ name := "invoke_agent",
     description := "Invoke a specific agent with an input prompt",
     inputSchema :=
      { type := "object",
        properties :=
          [("agent", { type := "string", description := "Name of the agent to invoke",
                       enum := r.listAgents }),
           ("input", { type := "string", description := "Input prompt for the agent" })],
        required := ["agent", "input"] } },
   { name := "invoke_parallel",
     description := "Invoke multiple agents in parallel with the same input",
     inputSchema :=
      { type := "object",
        properties :=
          [("agents", { type := "string",
                        description := "Comma-separated list of agent names" }),
           ("input", { type := "string", description := "Input prompt for all agents" })],
        required := ["agents", "input"] } },
   { name := "list_agents",
     description := "List all available agents and their descriptions",
     inputSchema := { type := "object" } },
   { name := "read_file",
     description := "Read the contents of a file in the workspace",
     inputSchema :=
      { type := "object",
        properties :=
          [("path", { type := "string",
                      description := "Path to the file (relative to workspace)" })],
        required := ["path"] } },
   { name := "glob_files",
     description := "Find files matching a glob pattern",
     inputSchema :=
      { type := "object",
        properties :=
          [("pattern", { type := "string",
                         description := "Glob pattern (e.g., '**/*.go')" })],
        required := ["pattern"] } },
   { name := "grep_files",
     description := "Search for a pattern in files",
     inputSchema :=
      { type := "object",
        properties :=
          [("pattern", { type := "string", description := "Regex pattern to search for" }),
           ("file_pattern", { type := "string",
                              description := "Optional file name pattern filter" })],
        required := ["pattern"] } },
   { name := "run_command",
     description := "Execute a shell command in the workspace",
     inputSchema :=
      { type := "object",
        properties :=
          [("command", { type := "string", description := "Shell command to execute" })],
        required := ["command"] } }]

/-- `handleInitialize` (renamed `handleInit` here): record initialization
and advertise protocol version, capabilities, identity. -/
def handleInit (s : Server) (req : Request) : Server × Response :=
  ({ s with initDone := true },
   { jsonrpc := "2.0", id := req.id,
     result := some (ResultVal.initRes
       { protocolVersion := ProtocolVersionStr,
         capabilities := { tools := true },
         serverInfo := s.serverInfo }) })

/-- `handleToolsList`. -/
def handleToolsList (s : Server) (req : Request) : Response :=
  { jsonrpc := "2.0", id := req.id,
    result := some (ResultVal.toolsList (toolCatalog s.runner)) }

/-- `handleRequest`: dispatch by method; `initialized` is a notification
with no response; unknown methods and the unsupported reads are
`MethodNotFound`. -/
def handleRequest (s : Server) (req : Request) : Server × Option Response :=
  match req.method with
  | "initialize" =>
    let p := handleInit s req
    (p.1, some p.2)
  | "initialized" => (s, none)
  | "tools/list" => (s, some (handleToolsList s req))
  | "tools/call" => (s, some (s.toolsCall req))
  | "resources/list" =>
    (s, some { jsonrpc := "2.0", id := req.id, result := some ResultVal.resourcesList })
  | "resources/read" =>
    (s, some (errorResponse req.id ErrMethodNotFoundCode "Resources not supported" none))
  | "prompts/list" =>
    (s, some { jsonrpc := "2.0", id := req.id, result := some ResultVal.promptsList })
  | "prompts/get" =>
    (s, some (errorResponse req.id ErrMethodNotFoundCode "Prompts not supported" none))
  | _ => (s, some (errorResponse req.id ErrMethodNotFoundCode "Method not found" none))

/-- The `serve` read loop over the lines of the transport: blank lines are
skipped; a line that fails to decode emits one `ParseError` response keyed
to a null id and the loop continues; otherwise the request is dispatched
and its response (when any) emitted. -/
def serve (decode : String → Except String Request) (s : Server) :
    List String → List Response
  | [] => []
  | line :: rest =>
    if line = "" then serve decode s rest
    else
      match decode line with
      | Except.error e =>
        errorResponse none ErrParseErrorCode "Parse error" (some e) :: serve decode s rest
      | Except.ok req =>
        match handleRequest s req with
        | (s2, none) => serve decode s2 rest
        | (s2, some resp) => resp :: serve decode s2 rest

/-- The slot-writing step of one parallel worker. -/
def schedStep (r : Runner) (tasks : List AgentTask)
    (slots : List (Option AgentResult)) (i : Nat) : List (Option AgentResult) :=
  match tasks.get? i with
  | some t => slots.set i (some (taskResult r t))
  | none => slots

/-- The effective input of a sequential step (named form of the `let` in
`seqLoop`). -/
def seqInput (t : AgentTask) (i : Nat) (ctxB : String) : String :=
  if ctxB ≠ "" ∧ 0 < i then
    "Previous context:\n" ++ ctxB ++ "\n\nCurrent task:\n" ++ t.input
  else t.input

/-- The recorded result of a sequential step (named form of the `let` in
`seqLoop`). -/
def seqResult (r : Runner) (t : AgentTask) (input : String) : AgentResult :=
  match r.invoke t.agent input with
  | Except.error e =>
    { agent := t.agent, input := t.input, output := "", success := false, error := e }
  | Except.ok res => res

/-- The context after a sequential step (named form of the `let` in
`seqLoop`). -/
def seqCtx2 (t : AgentTask) (ctxB : String) (result : AgentResult) : String :=
  if result.success then ctxB ++ "\n[" ++ t.agent ++ "]: " ++ result.output ++ "\n"
  else ctxB

/-- String containment: `needle` occurs contiguously inside `hay`. -/
def occursIn (needle hay : String) : Prop := ∃ u v, hay = u ++ needle ++ v

/-- Stub client for the C2 witness: always one non-done tool call. -/
def c2StubAgent : EmbeddedAgent :=
  { name := "stub", description := "", instructions := "sys", tools := [],
    llm := fun _ _ => Except.ok
      { content := "", toolCalls := [{ id := "1", name := "t", arguments := [] }],
        done := false },
    maxTokens := 4096 }

/-- Agent whose LLM client always fails, for the C5 counterexample and
witness. -/
def c5Agent : EmbeddedAgent :=
  { name := "a", description := "", instructions := "sys", tools := [],
    llm := fun _ _ => Except.error "boom", maxTokens := 4096 }

/-- Tool call with a name no tool has, for the C6 witness. -/
def c6Call : ToolCall := { id := "call-1", name := "nope", arguments := [] }

/-- Completion response requesting the unknown tool, for the C6 witness. -/
def c6Resp : CompletionResponse := { content := "c", toolCalls := [c6Call], done := false }

/-- Tool-less agent whose LLM requests the unknown tool, for the C6
witness. -/
def c6Agent : EmbeddedAgent :=
  { name := "w", description := "", instructions := "s", tools := [],
    llm := fun _ _ => Except.ok c6Resp, maxTokens := 4096 }

/-- Execution oracle for the C7 witness: `sh` runs and exits 3, anything
else fails to start. -/
def c7Env : ExecEnv := fun command _ dir =>
  if command = "sh" then ProcOutcome.exited 3 ("ran in " ++ dir) "err-output"
  else ProcOutcome.startFailure "exec format error"

/-- Agent that immediately succeeds with a fixed output, for the C3 and C4
witnesses. -/
def okAgent (agentName output : String) : EmbeddedAgent :=
  { name := agentName, description := "", instructions := "sys", tools := [],
    llm := fun _ _ => Except.ok { content := output, toolCalls := [], done := true },
    maxTokens := 4096 }

/-- Two-agent runner for the C3 witness. -/
def c3Runner : Runner :=
  { agents := [("x", okAgent "x" "out-x"), ("y", okAgent "y" "out-y")] }

/-- Tasks for the C3 witness: two known agents and one unknown name. -/
def c3Tasks : List AgentTask :=
  [{ agent := "y", input := "i0" }, { agent := "nosuch", input := "i1" },
   { agent := "x", input := "i2" }]

/-- Agent whose LLM always asks for a tool, so its invocation exhausts the
iteration ceiling and fails with output `Max iterations reached` — used by
the C4 counterexample. -/
def c4CeilAgent : EmbeddedAgent :=
  { name := "c", description := "", instructions := "sys", tools := [],
    llm := fun _ _ => Except.ok
      { content := "", toolCalls := [{ id := "1", name := "t", arguments := [] }],
        done := false },
    maxTokens := 4096 }

/-- Runner for the C4 counterexample: a ceiling-failing agent and a
successful agent whose output happens to be the same text. -/
def c4CexRunner : Runner :=
  { agents := [("c", c4CeilAgent), ("s", okAgent "s" "Max iterations reached")] }

/-- Tasks for the C4 counterexample. -/
def c4CexTasks : List AgentTask :=
  [{ agent := "c", input := "t1" }, { agent := "s", input := "t2" },
   { agent := "s", input := "t3" }]

/-- Runner for the C4 witness. -/
def c4Runner : Runner :=
  { agents := [("x", okAgent "x" "out-x"), ("y", okAgent "y" "out-y")] }

/-- Tasks for the C4 witness. -/
def c4Tasks : List AgentTask :=
  [{ agent := "x", input := "t1" }, { agent := "y", input := "t2" }]

/-- Recorded step 0 of the C4 witness run. -/
def c4Step0 : SeqStep :=
  { task := { agent := "x", input := "t1" }, ctx := "", input := "t1",
    result := { agent := "x", input := "t1", output := "out-x", success := true } }

/-- Recorded step 1 of the C4 witness run. -/
def c4Step1 : SeqStep :=
  { task := { agent := "y", input := "t2" }, ctx := "\n[x]: out-x\n",
    input := "Previous context:\n\n[x]: out-x\n\n\nCurrent task:\nt2",
    result := { agent := "y",
                input := "Previous context:\n\n[x]: out-x\n\n\nCurrent task:\nt2",
                output := "out-y", success := true } }

/-- Server for the C8 witness: empty registry, inert `tools/call` oracle. -/
def c8Server : Server :=
  { runner := { agents := [] },
    serverInfo := { name := "agentkit", version := "0.1" },
    toolsCall := fun req =>
      errorResponse req.id ErrMethodNotFoundCode "Method not found" none }

/-- The well-formed `tools/list` request of the C8 witness. -/
def c8Req : Request := { jsonrpc := "2.0", id := some "7", method := "tools/list" }

/-- Decoder for the C8 witness: only the line `good` parses. -/
def c8Decode : String → Except String Request := fun line =>
  if line = "good" then Except.ok c8Req
  else Except.error "invalid character"

/-- Filesystem for the C9 witness: one small file and one directory under
`/w`. -/
def c9FS : FileSystem := fun p =>
  if p = "/w/a.txt" then some (FSEntry.file "hello")
  else if p = "/w/d" then some FSEntry.dir
  else none

namespace Filepath

theorem toList_asString (l : List Char) : (List.asString l).toList = l := rfl

theorem splitSlash_ne_nil (l : List Char) : splitSlash l ≠ [] := by
  cases l with
  | nil => simp [splitSlash]
  | cons c rest =>
    simp only [splitSlash]
    split
    · simp
    · cases h : splitSlash rest <;> simp

theorem mem_splitSlash_no_slash (l : List Char) : ∀ f ∈ splitSlash l, '/' ∉ f := by
  induction l with
  | nil => intro f hf; simp [splitSlash] at hf; simp [hf]
  | cons c rest ih =>
    intro f hf
    simp only [splitSlash] at hf
    split at hf
    · rcases List.mem_cons.1 hf with h | h
      · simp [h]
      · exact ih f h
    · rename_i hc
      rcases hsp : splitSlash rest with _ | ⟨g, gs⟩
      · exact absurd hsp (splitSlash_ne_nil rest)
      · rw [hsp] at hf
        rcases List.mem_cons.1 hf with h | h
        · subst h
          intro hmem
          rcases List.mem_cons.1 hmem with h' | h'
          · exact hc h'.symm
          · exact ih g (by rw [hsp]; exact List.mem_cons_self g gs) h'
        · exact ih f (by rw [hsp]; exact List.mem_cons_of_mem g h)

theorem splitSlash_cons_slash (l : List Char) : splitSlash ('/' :: l) = [] :: splitSlash l := by
  simp [splitSlash]

theorem splitSlash_append_slash (l1 l2 : List Char) :
    splitSlash (l1 ++ '/' :: l2) = splitSlash l1 ++ splitSlash l2 := by
  induction l1 with
  | nil => simp [splitSlash_cons_slash, splitSlash]
  | cons c rest ih =>
    by_cases hc : c = '/'
    · subst hc
      simp only [List.cons_append, splitSlash_cons_slash, ih]
    · rcases hsp : splitSlash rest with _ | ⟨g, gs⟩
      · exact absurd hsp (splitSlash_ne_nil rest)
      · simp only [List.cons_append, splitSlash, if_neg hc, List.append_eq, ih, hsp]

theorem splitSlash_append_no_slash {f : List Char} (hf : '/' ∉ f) {l : List Char}
    {g : List Char} {gs : List (List Char)} (hl : splitSlash l = g :: gs) :
    splitSlash (f ++ l) = (f ++ g) :: gs := by
  induction f with
  | nil => simpa using hl
  | cons c rest ih =>
    have hc : c ≠ '/' := fun h => hf (by simp [h])
    have hrest : '/' ∉ rest := fun h => hf (List.mem_cons_of_mem _ h)
    simp only [List.cons_append, splitSlash, if_neg hc, List.append_eq, ih hrest]

theorem splitSlash_no_slash_eq {f : List Char} (hf : '/' ∉ f) : splitSlash f = [f] := by
  have h : splitSlash (f ++ []) = (f ++ []) :: [] :=
    @splitSlash_append_no_slash f hf [] [] [] rfl
  simpa using h

theorem joinComps_cons_cons (f g : List Char) (rest : List (List Char)) :
    joinComps (f :: g :: rest) = f ++ '/' :: joinComps (g :: rest) := rfl

theorem splitSlash_joinComps {cs : List (List Char)} (hg : ∀ f ∈ cs, Good f)
    (hne : cs ≠ []) : splitSlash (joinComps cs) = cs := by
  induction cs with
  | nil => exact absurd rfl hne
  | cons f rest ih =>
    have hf : Good f := hg f (List.mem_cons_self f rest)
    cases rest with
    | nil => simpa [joinComps] using splitSlash_no_slash_eq hf.2.2
    | cons g rest' =>
      have hrest : ∀ x ∈ g :: rest', Good x := fun x hx => hg x (List.mem_cons_of_mem f hx)
      have ihr := ih hrest (by simp)
      rw [joinComps_cons_cons, splitSlash_append_no_slash hf.2.2
        (by rw [splitSlash_cons_slash, ihr])]
      simp

theorem fields_joinComps {cs : List (List Char)} (hg : ∀ f ∈ cs, Good f)
    (hne : cs ≠ []) : fields (joinComps cs) = cs := by
  unfold fields
  rw [splitSlash_joinComps hg hne]
  apply List.filter_eq_self.2
  intro f hf
  rcases hg f hf with ⟨h1, h2, _⟩
  simp [h1, h2]

theorem fields_slash_joinComps {cs : List (List Char)} (hg : ∀ f ∈ cs, Good f) :
    fields ('/' :: joinComps cs) = cs := by
  cases hcs : cs with
  | nil => simp [fields, joinComps, splitSlash]
  | cons f rest =>
    unfold fields
    rw [splitSlash_cons_slash, splitSlash_joinComps (hcs ▸ hg) (by simp)]
    have hfilter : List.filter (fun f => f != [] && f != ['.']) (f :: rest) = f :: rest := by
      apply List.filter_eq_self.2
      intro x hx
      rcases (hcs ▸ hg) x hx with ⟨h1, h2, _⟩
      simp [h1, h2]
    have hdrop : List.filter (fun f => f != [] && f != ['.']) ([] :: f :: rest)
        = List.filter (fun f => f != [] && f != ['.']) (f :: rest) := by
      simp [List.filter_cons]
    rw [hdrop, hfilter]

theorem good_dotdot : Good ['.', '.'] := by
  refine ⟨by simp, by simp, by simp⟩

theorem fields_good (l : List Char) : ∀ f ∈ fields l, Good f := by
  intro f hf
  rcases List.mem_filter.1 hf with ⟨hmem, hp⟩
  have h1 : f ≠ [] ∧ f ≠ ['.'] := by
    constructor <;> [skip; skip] <;> intro h <;> subst h <;> simp at hp
  exact ⟨h1.1, h1.2, mem_splitSlash_no_slash l f hmem⟩

theorem cleanCore_nil (rooted : Bool) (acc : List (List Char)) :
    cleanCore rooted acc [] = acc.reverse := rfl

theorem cleanCore_cons_other {f : List Char} (h : f ≠ ['.', '.']) (rooted : Bool)
    (acc rest : List (List Char)) :
    cleanCore rooted acc (f :: rest) = cleanCore rooted (f :: acc) rest := by
  simp [cleanCore, h]

theorem cleanCore_dotdot_acc_nil (rooted : Bool) (rest : List (List Char)) :
    cleanCore rooted [] (['.', '.'] :: rest) =
      if rooted then cleanCore rooted [] rest else cleanCore rooted [['.', '.']] rest := by
  simp [cleanCore]

theorem cleanCore_dotdot_acc_dotdot (rooted : Bool) (tl rest : List (List Char)) :
    cleanCore rooted (['.', '.'] :: tl) (['.', '.'] :: rest) =
      cleanCore rooted (['.', '.'] :: ['.', '.'] :: tl) rest := by
  simp [cleanCore]

theorem cleanCore_dotdot_acc_cons {a : List Char} (ha : a ≠ ['.', '.'])
    (rooted : Bool) (tl rest : List (List Char)) :
    cleanCore rooted (a :: tl) (['.', '.'] :: rest) = cleanCore rooted tl rest := by
  simp [cleanCore, ha]

theorem cleanCore_good {rooted : Bool} :
    ∀ {cs acc : List (List Char)}, (∀ f ∈ acc, Good f) → (∀ f ∈ cs, Good f) →
      ∀ f ∈ cleanCore rooted acc cs, Good f := by
  intro cs
  induction cs with
  | nil =>
    intro acc hacc _ f hf
    rw [cleanCore_nil, List.mem_reverse] at hf
    exact hacc f hf
  | cons c rest ih =>
    intro acc hacc hcs f hf
    have hcrest : ∀ x ∈ rest, Good x := fun x hx => hcs x (List.mem_cons_of_mem c hx)
    by_cases hdd : c = ['.', '.']
    · subst hdd
      rcases hacctl : acc with _ | ⟨a, tl⟩
      · rw [hacctl, cleanCore_dotdot_acc_nil] at hf
        by_cases hr : rooted = true
        · rw [if_pos hr] at hf
          exact ih (by simp) hcrest f hf
        · rw [if_neg hr] at hf
          exact ih (by intro x hx; simp at hx; subst hx; exact good_dotdot) hcrest f hf
      · by_cases ha : a = ['.', '.']
        · subst ha
          rw [hacctl, cleanCore_dotdot_acc_dotdot] at hf
          refine ih ?_ hcrest f hf
          intro x hx
          rcases List.mem_cons.1 hx with h | h
          · exact h ▸ good_dotdot
          · exact hacc x (hacctl ▸ h)
        · rw [hacctl, cleanCore_dotdot_acc_cons ha] at hf
          exact ih (fun x hx => hacc x (hacctl ▸ List.mem_cons_of_mem a hx)) hcrest f hf
    · rw [cleanCore_cons_other hdd] at hf
      refine ih ?_ hcrest f hf
      intro x hx
      rcases List.mem_cons.1 hx with h | h
      · exact h ▸ hcs c (List.mem_cons_self c rest)
      · exact hacc x h

theorem cleanCore_rooted_no_dotdot :
    ∀ {cs acc : List (List Char)}, (∀ f ∈ acc, f ≠ ['.', '.']) →
      ∀ f ∈ cleanCore true acc cs, f ≠ ['.', '.'] := by
  intro cs
  induction cs with
  | nil =>
    intro acc hacc f hf
    rw [cleanCore_nil, List.mem_reverse] at hf
    exact hacc f hf
  | cons c rest ih =>
    intro acc hacc f hf
    by_cases hdd : c = ['.', '.']
    · subst hdd
      rcases hacctl : acc with _ | ⟨a, tl⟩
      · rw [hacctl, cleanCore_dotdot_acc_nil, if_pos rfl] at hf
        exact ih (by simp) f hf
      · have ha : a ≠ ['.', '.'] := hacc a (hacctl ▸ List.mem_cons_self a tl)
        rw [hacctl, cleanCore_dotdot_acc_cons ha] at hf
        exact ih (fun x hx => hacc x (hacctl ▸ List.mem_cons_of_mem a hx)) f hf
    · rw [cleanCore_cons_other hdd] at hf
      refine ih ?_ f hf
      intro x hx
      rcases List.mem_cons.1 hx with h | h
      · exact h ▸ hdd
      · exact hacc x h

theorem cleanCore_eq_of_no_dotdot {rooted : Bool} :
    ∀ {cs acc : List (List Char)}, (∀ f ∈ cs, f ≠ ['.', '.']) →
      cleanCore rooted acc cs = acc.reverse ++ cs := by
  intro cs
  induction cs with
  | nil => intro acc _; simp [cleanCore_nil]
  | cons c rest ih =>
    intro acc hcs
    have hc : c ≠ ['.', '.'] := hcs c (List.mem_cons_self c rest)
    rw [cleanCore_cons_other hc, ih (fun x hx => hcs x (List.mem_cons_of_mem c hx))]
    simp

theorem clean_abs_eq {p : String} (h : IsAbs p = true) :
    Clean p = ('/' :: joinComps (cleanCore true [] (fields p.toList))).asString := by
  unfold Clean
  rw [h]
  simp

theorem toList_clean_abs {p : String} (h : IsAbs p = true) :
    (Clean p).toList = '/' :: joinComps (cleanCore true [] (fields p.toList)) := by
  rw [clean_abs_eq h, toList_asString]

theorem fields_clean (p : String) :
    fields (Clean p).toList = cleanCore (IsAbs p) [] (fields p.toList) := by
  by_cases habs : IsAbs p = true
  · rw [toList_clean_abs habs, habs]
    exact fields_slash_joinComps (cleanCore_good (by simp) (fields_good _))
  · have habs' : IsAbs p = false := by simpa using habs
    unfold Clean
    rw [habs']
    simp only [Bool.false_eq_true, if_false]
    by_cases hnil : cleanCore false [] (fields p.toList) = []
    · rw [if_pos hnil, hnil]
      rfl
    · rw [if_neg hnil, toList_asString]
      exact fields_joinComps (cleanCore_good (by simp) (fields_good _)) hnil

theorem isAbs_asString_joinComps {c : List Char} {tl : List (List Char)} (hc : Good c) :
    IsAbs (joinComps (c :: tl)).asString = false := by
  obtain ⟨r, hr⟩ : ∃ r, joinComps (c :: tl) = c ++ r := by
    cases tl with
    | nil => exact ⟨[], by simp [joinComps]⟩
    | cons g tl' => exact ⟨'/' :: joinComps (g :: tl'), rfl⟩
  obtain ⟨x, xs, hcc⟩ := List.exists_cons_of_ne_nil hc.1
  have hx : x ≠ '/' := fun h => hc.2.2 (by rw [hcc, h]; exact List.mem_cons_self _ _)
  unfold IsAbs
  rw [toList_asString, hr, hcc]
  simp [hx]

theorem isAbs_clean (p : String) : IsAbs (Clean p) = IsAbs p := by
  by_cases habs : IsAbs p = true
  · rw [habs]
    unfold IsAbs
    rw [toList_clean_abs habs]
    simp
  · have habs' : IsAbs p = false := by simpa using habs
    rw [habs']
    unfold Clean
    rw [habs']
    simp only [Bool.false_eq_true, if_false]
    by_cases hnil : cleanCore false [] (fields p.toList) = []
    · rw [if_pos hnil]
      rfl
    · rw [if_neg hnil]
      rcases hcs : cleanCore false [] (fields p.toList) with _ | ⟨c, tl⟩
      · exact absurd hcs hnil
      · have hcg : Good c := @cleanCore_good false (fields p.toList) []
          (fun f hf => absurd hf (List.not_mem_nil f)) (fields_good _) c
          (by rw [hcs]; exact List.mem_cons_self c tl)
        exact isAbs_asString_joinComps hcg

theorem clean_clean_abs {p : String} (h : IsAbs p = true) : Clean (Clean p) = Clean p := by
  have habs2 : IsAbs (Clean p) = true := by rw [isAbs_clean]; exact h
  have hnodot : ∀ f ∈ cleanCore true [] (fields p.toList), f ≠ ['.', '.'] :=
    cleanCore_rooted_no_dotdot (by simp)
  rw [clean_abs_eq habs2, fields_clean p, h, cleanCore_eq_of_no_dotdot hnodot]
  simp only [List.reverse_nil, List.nil_append]
  rw [clean_abs_eq h]

theorem dropCommon_nil_left (T : List (List Char)) : dropCommon [] T = ([], T) := by
  cases T <;> rfl

theorem dropCommon_of_prefix :
    ∀ {B T : List (List Char)}, B <+: T → dropCommon B T = ([], T.drop B.length) := by
  intro B
  induction B with
  | nil => intro T _; simpa using dropCommon_nil_left T
  | cons b bs ih =>
    intro T hBT
    rcases hBT with ⟨rest, hrest⟩
    subst hrest
    simp only [List.cons_append, dropCommon, if_pos rfl]
    have h := @ih (bs ++ rest) ⟨rest, rfl⟩
    simpa using h

theorem dropCommon_fst_nil :
    ∀ {B T : List (List Char)}, (dropCommon B T).1 = [] → B <+: T := by
  intro B
  induction B with
  | nil => intro T _; exact List.nil_prefix
  | cons b bs ih =>
    intro T h
    cases T with
    | nil => simp [dropCommon] at h
    | cons t ts =>
      by_cases hbt : b = t
      · subst hbt
        rw [show dropCommon (b :: bs) (b :: ts) = dropCommon bs ts from by
          simp [dropCommon]] at h
        exact List.cons_prefix_cons.2 ⟨rfl, ih h⟩
      · rw [show dropCommon (b :: bs) (t :: ts) = (b :: bs, t :: ts) from by
          simp [dropCommon, hbt]] at h
        simp at h

theorem dropCommon_fst_mem :
    ∀ {B T : List (List Char)} {f : List Char}, f ∈ (dropCommon B T).1 → f ∈ B := by
  intro B
  induction B with
  | nil => intro T f h; rw [dropCommon_nil_left] at h; simp at h
  | cons b bs ih =>
    intro T f h
    cases T with
    | nil => simp [dropCommon] at h; rcases h with h | h <;> simp [h]
    | cons t ts =>
      by_cases hbt : b = t
      · subst hbt
        rw [show dropCommon (b :: bs) (b :: ts) = dropCommon bs ts from by
          simp [dropCommon]] at h
        exact List.mem_cons_of_mem b (ih h)
      · rw [show dropCommon (b :: bs) (t :: ts) = (b :: bs, t :: ts) from by
          simp [dropCommon, hbt]] at h
        exact h

theorem dropCommon_snd_mem :
    ∀ {B T : List (List Char)} {f : List Char}, f ∈ (dropCommon B T).2 → f ∈ T := by
  intro B
  induction B with
  | nil => intro T f h; rw [dropCommon_nil_left] at h; exact h
  | cons b bs ih =>
    intro T f h
    cases T with
    | nil => simp [dropCommon] at h
    | cons t ts =>
      by_cases hbt : b = t
      · subst hbt
        rw [show dropCommon (b :: bs) (b :: ts) = dropCommon bs ts from by
          simp [dropCommon]] at h
        exact List.mem_cons_of_mem b (ih h)
      · rw [show dropCommon (b :: bs) (t :: ts) = (b :: bs, t :: ts) from by
          simp [dropCommon, hbt]] at h
        exact h

theorem isPrefixOf_joinComps_cons {c : List Char} (hc : Good c) (rest : List (List Char)) :
    ['.', '.'].isPrefixOf (joinComps (c :: rest)) = ['.', '.'].isPrefixOf c := by
  obtain ⟨r, hr, hrshape⟩ :
      ∃ r, joinComps (c :: rest) = c ++ r ∧ (r = [] ∨ ∃ r', r = '/' :: r') := by
    cases rest with
    | nil => exact ⟨[], by simp [joinComps], Or.inl rfl⟩
    | cons g rest' => exact ⟨'/' :: joinComps (g :: rest'), rfl, Or.inr ⟨_, rfl⟩⟩
  obtain ⟨x, xs, hcc⟩ := List.exists_cons_of_ne_nil hc.1
  rw [hr, hcc]
  cases xs with
  | nil =>
    have hx : x ≠ '.' := by
      intro h
      exact hc.2.1 (by rw [hcc, h])
    rcases hrshape with h | ⟨r', h⟩ <;> subst h <;> simp [List.isPrefixOf, hx]
  | cons y ys =>
    simp [List.isPrefixOf]

theorem toList_append (a b : String) : (a ++ b).toList = a.toList ++ b.toList := rfl

theorem isAbs_ne_empty {a : String} (h : IsAbs a = true) : a ≠ "" := by
  intro he
  subst he
  simp [IsAbs] at h

theorem isAbs_append {a : String} (h : IsAbs a = true) (b : String) :
    IsAbs (a ++ b) = true := by
  unfold IsAbs at *
  rw [toList_append]
  rcases hl : a.toList with _ | ⟨x, xs⟩
  · rw [hl] at h; simp at h
  · rw [hl] at h
    simp only [List.head?_cons, beq_iff_eq, Option.some.injEq] at h
    simp [h]

theorem abs_eq_clean {cwd p : String} (h : IsAbs p = true) : Abs cwd p = Clean p := by
  unfold Abs
  rw [h]
  simp

theorem isAbs_path1 {ws : String} (p : String) (hws : IsAbs ws = true) :
    IsAbs (if !(IsAbs p) then Join ws p else p) = true := by
  by_cases hp : IsAbs p = true
  · simp [hp]
  · have hp' : IsAbs p = false := by simpa using hp
    rw [hp']
    show IsAbs (Join ws p) = true
    unfold Join
    rw [if_pos (isAbs_ne_empty hws), isAbs_clean]
    exact isAbs_append (isAbs_append hws "/") p

theorem rel_clean_spec {ws q : String} (hws : IsAbs ws = true) (hq : IsAbs q = true) :
    ∃ r, Rel ws (Clean q) = some r ∧
      hasPrefixStr r ".." =
        escapeFlag (cleanCore true [] (fields ws.toList))
          (cleanCore true [] (fields q.toList)) := by
  have hWfields : fields (Clean ws).toList = cleanCore true [] (fields ws.toList) := by
    rw [fields_clean, hws]
  have hXfields : fields (Clean q).toList = cleanCore true [] (fields q.toList) := by
    rw [fields_clean, hq]
  have hXgood : ∀ f ∈ cleanCore true [] (fields q.toList), Good f :=
    @cleanCore_good true (fields q.toList) []
      (fun f hf => absurd hf (List.not_mem_nil f)) (fields_good _)
  have hWnodot : ∀ f ∈ cleanCore true [] (fields ws.toList), f ≠ ['.', '.'] :=
    cleanCore_rooted_no_dotdot (fun f hf => absurd hf (List.not_mem_nil f))
  have hcc : Clean (Clean q) = Clean q := clean_clean_abs hq
  by_cases heq : Clean q = Clean ws
  · refine ⟨".", ?_, ?_⟩
    · simp only [Rel]
      rw [hcc, heq]
      simp
    · have hXW : cleanCore true [] (fields q.toList) = cleanCore true [] (fields ws.toList) := by
        rw [← hXfields, ← hWfields, heq]
      rw [hXW]
      unfold escapeFlag
      rw [if_pos (List.isPrefixOf_iff_prefix.2 (List.prefix_refl _)), List.drop_length]
      rfl
  · have hbase : IsAbs (Clean ws) = true := by rw [isAbs_clean]; exact hws
    have htarg : IsAbs (Clean q) = true := by rw [isAbs_clean]; exact hq
    by_cases hpre : (cleanCore true [] (fields ws.toList)).isPrefixOf
        (cleanCore true [] (fields q.toList)) = true
    · have hWX := List.isPrefixOf_iff_prefix.1 hpre
      have hdc : dropCommon (cleanCore true [] (fields ws.toList))
          (cleanCore true [] (fields q.toList)) =
          ([], (cleanCore true [] (fields q.toList)).drop
            (cleanCore true [] (fields ws.toList)).length) :=
        dropCommon_of_prefix hWX
      rcases hdrop : (cleanCore true [] (fields q.toList)).drop
          (cleanCore true [] (fields ws.toList)).length with _ | ⟨c, rest⟩
      · exfalso
        have hlen : (cleanCore true [] (fields q.toList)).length ≤
            (cleanCore true [] (fields ws.toList)).length := List.drop_eq_nil_iff.mp hdrop
        have heqWX : cleanCore true [] (fields ws.toList) = cleanCore true [] (fields q.toList) :=
          hWX.eq_of_length (le_antisymm hWX.length_le hlen)
        exact heq (by rw [clean_abs_eq hq, clean_abs_eq hws, heqWX])
      · refine ⟨(joinComps (c :: rest)).asString, ?_, ?_⟩
        · simp only [Rel]
          rw [hcc]
          rw [if_neg heq, hbase, htarg]
          simp only [bne_self_eq_false, Bool.false_eq_true, if_false]
          rw [hWfields, hXfields, hdc, hdrop]
          simp
        · have hcgood : Good c := hXgood c (List.mem_of_mem_drop
            (by rw [hdrop]; exact List.mem_cons_self c rest))
          unfold hasPrefixStr
          rw [toList_asString]
          have h1 : ((".." : String).toList) = ['.', '.'] := rfl
          rw [h1, isPrefixOf_joinComps_cons hcgood]
          unfold escapeFlag
          rw [if_pos hpre, hdrop]
    · have hpre' : (cleanCore true [] (fields ws.toList)).isPrefixOf
          (cleanCore true [] (fields q.toList)) = false := by
        cases hb : (cleanCore true [] (fields ws.toList)).isPrefixOf
            (cleanCore true [] (fields q.toList))
        · rfl
        · exact absurd hb hpre
      rcases hrem : (dropCommon (cleanCore true [] (fields ws.toList))
          (cleanCore true [] (fields q.toList))).fst with _ | ⟨c, cs⟩
      · exfalso
        have := List.isPrefixOf_iff_prefix.2 (dropCommon_fst_nil hrem)
        rw [hpre'] at this
        exact Bool.false_ne_true this
      · have hcne : c ≠ ['.', '.'] :=
          hWnodot c (dropCommon_fst_mem (by rw [hrem]; exact List.mem_cons_self c cs))
        refine ⟨(joinComps (['.', '.'] ::
            (cs.map (fun _ => (['.', '.'] : List Char)) ++
              (dropCommon (cleanCore true [] (fields ws.toList))
                (cleanCore true [] (fields q.toList))).snd))).asString, ?_, ?_⟩
        · simp only [Rel]
          rw [hcc]
          rw [if_neg heq, hbase, htarg]
          simp only [bne_self_eq_false, Bool.false_eq_true, if_false]
          rw [hWfields, hXfields, hrem]
          simp [hcne]
        · unfold hasPrefixStr
          rw [toList_asString]
          have h1 : ((".." : String).toList) = ['.', '.'] := rfl
          rw [h1, isPrefixOf_joinComps_cons good_dotdot]
          unfold escapeFlag
          rw [if_neg (by rw [hpre']; exact Bool.false_ne_true)]
          decide

end Filepath

theorem resolvedTarget_isAbs {ts : ToolSet} {cwd p : String}
    (hws : Filepath.IsAbs ts.workspace = true) :
    Filepath.IsAbs (resolvedTarget ts.workspace cwd p) = true := by
  have hpath1 := Filepath.isAbs_path1 p hws
  unfold resolvedTarget
  rw [Filepath.abs_eq_clean hpath1, Filepath.isAbs_clean]
  exact hpath1

/-- Behaviour of `validatePath` over an absolute workspace: it rejects
exactly when the resolved target escapes the root or the target's first
element below the root begins with `..`, and otherwise returns the resolved
target. -/
theorem validatePath_eq (ts : ToolSet) (cwd p : String)
    (hws : Filepath.IsAbs ts.workspace = true) :
    ts.validatePath cwd p =
      if escapeFlagAt ts.workspace cwd p = true then
        Except.error ("path outside workspace: " ++
          (if !(Filepath.IsAbs p) then Filepath.Join ts.workspace p else p))
      else Except.ok (resolvedTarget ts.workspace cwd p) := by
  have hpath1 := Filepath.isAbs_path1 p hws
  have habs : Filepath.Abs cwd (if !(Filepath.IsAbs p) then Filepath.Join ts.workspace p else p)
      = Filepath.Clean (if !(Filepath.IsAbs p) then Filepath.Join ts.workspace p else p) :=
    Filepath.abs_eq_clean hpath1
  obtain ⟨r, hrel, hpref⟩ := Filepath.rel_clean_spec hws hpath1
  have hflag : escapeFlagAt ts.workspace cwd p =
      Filepath.escapeFlag
        (Filepath.cleanCore true [] (Filepath.fields ts.workspace.toList))
        (Filepath.cleanCore true []
          (Filepath.fields (if !(Filepath.IsAbs p) then
            Filepath.Join ts.workspace p else p).toList)) := by
    unfold escapeFlagAt underRoot firstElemBelowRootDotDot
    have h1 : rootFields ts.workspace =
        Filepath.cleanCore true [] (Filepath.fields ts.workspace.toList) := by
      unfold rootFields
      rw [Filepath.fields_clean, hws]
    have h2 : Filepath.fields (resolvedTarget ts.workspace cwd p).toList =
        Filepath.cleanCore true []
          (Filepath.fields (if !(Filepath.IsAbs p) then
            Filepath.Join ts.workspace p else p).toList) := by
      unfold resolvedTarget
      rw [habs, Filepath.fields_clean, hpath1]
    rw [h1, h2]
    rfl
  rw [← hflag] at hpref
  unfold ToolSet.validatePath
  simp only [habs, hrel]
  by_cases hesc : escapeFlagAt ts.workspace cwd p = true
  · rw [if_pos (hpref.trans hesc), if_pos hesc]
  · have hesc' : escapeFlagAt ts.workspace cwd p = false := by
      cases hb : escapeFlagAt ts.workspace cwd p
      · rfl
      · exact absurd hb hesc
    have hnot : ¬ (Filepath.hasPrefixStr r ".." = true) := by
      rw [hpref.trans hesc']
      exact Bool.false_ne_true
    have hnot2 : ¬ (escapeFlagAt ts.workspace cwd p = true) := by
      rw [hesc']
      exact Bool.false_ne_true
    rw [if_neg hnot, if_neg hnot2, ← habs]
    rfl

/-! ## Helper lemmas about the embedded definitions -/

theorem append_ne_empty {a : String} (ha : a.toList ≠ []) (b : String) : a ++ b ≠ "" := by
  intro hc
  have hd := congrArg String.toList hc
  rw [Filepath.toList_append] at hd
  exact ha (List.append_eq_nil.1 hd).1

theorem eq_empty_of_toList_nil {s : String} (h : s.toList = []) : s = "" := by
  cases s with
  | mk data =>
    cases h
    rfl

theorem invokeLoop_zero (a : EmbeddedAgent) (input : String) (tds : List ToolDefinition)
    (msgs : List Message) :
    invokeLoop a input tds msgs 0 =
      (Except.ok { agent := a.name, input := input, output := "Max iterations reached",
                   success := false, error := "agent loop exceeded maximum iterations" }, 0) := rfl

theorem invokeLoop_succ_error {a : EmbeddedAgent} {msgs : List Message}
    {tds : List ToolDefinition} {e : String} (input : String) (n : Nat)
    (h : a.llm msgs tds = Except.error e) :
    invokeLoop a input tds msgs (n + 1) =
      (Except.error ("LLM completion failed: " ++ e), 1) := by
  simp [invokeLoop, h]

theorem invokeLoop_succ_done {a : EmbeddedAgent} {msgs : List Message}
    {tds : List ToolDefinition} {resp : CompletionResponse} (input : String) (n : Nat)
    (h : a.llm msgs tds = Except.ok resp)
    (hstop : (resp.toolCalls.isEmpty || resp.done) = true) :
    invokeLoop a input tds msgs (n + 1) =
      (Except.ok { agent := a.name, input := input, output := resp.content,
                   success := true }, 1) := by
  simp [invokeLoop, h, hstop]

theorem invokeLoop_succ_tools {a : EmbeddedAgent} {msgs : List Message}
    {tds : List ToolDefinition} {resp : CompletionResponse} (input : String) (n : Nat)
    (h : a.llm msgs tds = Except.ok resp)
    (hgo : (resp.toolCalls.isEmpty || resp.done) = false) :
    invokeLoop a input tds msgs (n + 1) =
      ((invokeLoop a input tds
          ((msgs ++ [{ role := "assistant", content := resp.content }])
            ++ resp.toolCalls.map (fun tc => toolResultMessage tc (executeTool a tc))) n).1,
       (invokeLoop a input tds
          ((msgs ++ [{ role := "assistant", content := resp.content }])
            ++ resp.toolCalls.map (fun tc => toolResultMessage tc (executeTool a tc))) n).2 + 1) := by
  simp [invokeLoop, h, hgo]

theorem invokeLoop_ok_fields (a : EmbeddedAgent) (input : String)
    (tds : List ToolDefinition) :
    ∀ (n : Nat) (msgs : List Message) (res : AgentResult),
      (invokeLoop a input tds msgs n).1 = Except.ok res →
      res.agent = a.name ∧ res.input = input := by
  intro n
  induction n with
  | zero =>
    intro msgs res h
    rw [invokeLoop_zero] at h
    cases h
    exact ⟨rfl, rfl⟩
  | succ n ih =>
    intro msgs res h
    cases hllm : a.llm msgs tds with
    | error e =>
      rw [invokeLoop_succ_error input n hllm] at h
      cases h
    | ok resp =>
      cases hstop : (resp.toolCalls.isEmpty || resp.done) with
      | true =>
        rw [invokeLoop_succ_done input n hllm hstop] at h
        cases h
        exact ⟨rfl, rfl⟩
      | false =>
        rw [invokeLoop_succ_tools input n hllm hstop] at h
        exact ih _ res h

theorem invoke_ok_fields {a : EmbeddedAgent} {input : String} {res : AgentResult}
    (h : invoke a input = Except.ok res) : res.agent = a.name ∧ res.input = input :=
  invokeLoop_ok_fields a input _ maxIterations _ res h

theorem lookup_mem :
    ∀ {l : List (String × EmbeddedAgent)} {k : String} {v : EmbeddedAgent},
      l.lookup k = some v → (k, v) ∈ l := by
  intro l
  induction l with
  | nil => intro k v h; simp [List.lookup] at h
  | cons p rest ih =>
    intro k v h
    rw [List.lookup] at h
    cases hb : (k == p.1) with
    | true =>
      rw [hb] at h
      simp only [Option.some.injEq] at h
      have hk : k = p.1 := eq_of_beq hb
      subst hk
      subst h
      rw [Prod.mk.eta]
      exact List.mem_cons_self p rest
    | false =>
      rw [hb] at h
      exact List.mem_cons_of_mem p (ih h)

theorem runner_invoke_none {r : Runner} {agentName : String} (input : String)
    (hlook : r.agents.lookup agentName = none) :
    r.invoke agentName input = Except.error ("agent not found: " ++ agentName) := by
  unfold Runner.invoke
  rw [hlook]

theorem runner_invoke_some {r : Runner} {agentName : String} {a : EmbeddedAgent}
    (input : String) (hlook : r.agents.lookup agentName = some a) :
    r.invoke agentName input =
      match AgentKit.invoke a input with
      | Except.error e => Except.error ("agent invocation failed: " ++ e)
      | Except.ok result => Except.ok result := by
  unfold Runner.invoke
  rw [hlook]

theorem runner_invoke_ok_agent {r : Runner} (hwf : r.WellFormed)
    {agentName input : String} {res : AgentResult}
    (h : r.invoke agentName input = Except.ok res) : res.agent = agentName := by
  cases hlook : r.agents.lookup agentName with
  | none =>
    rw [runner_invoke_none input hlook] at h
    cases h
  | some a =>
    rw [runner_invoke_some input hlook] at h
    cases hinv : AgentKit.invoke a input with
    | error e =>
      rw [hinv] at h
      cases h
    | ok res2 =>
      rw [hinv] at h
      simp only [Except.ok.injEq] at h
      subst h
      rw [(invoke_ok_fields hinv).1]
      exact hwf (agentName, a) (lookup_mem hlook)

theorem runner_invoke_error_ne {r : Runner} {agentName input e : String}
    (h : r.invoke agentName input = Except.error e) : e ≠ "" := by
  cases hlook : r.agents.lookup agentName with
  | none =>
    rw [runner_invoke_none input hlook] at h
    simp only [Except.error.injEq] at h
    subst h
    exact append_ne_empty (by decide) agentName
  | some a =>
    rw [runner_invoke_some input hlook] at h
    cases hinv : AgentKit.invoke a input with
    | error e2 =>
      rw [hinv] at h
      simp only [Except.error.injEq] at h
      subst h
      exact append_ne_empty (by decide) e2
    | ok res =>
      rw [hinv] at h
      cases h

theorem invokeParallel_eq (r : Runner) (tasks : List AgentTask) :
    r.invokeParallel tasks = Except.ok (tasks.map (taskResult r)) := by
  by_cases h : tasks = []
  · subst h
    rfl
  · simp [Runner.invokeParallel, h]

theorem invokeSequential_eq (r : Runner) (tasks : List AgentTask) :
    r.invokeSequential tasks =
      Except.ok ((seqLoop r tasks 0 "").map (fun st => st.result)) := by
  by_cases h : tasks = []
  · subst h
    rfl
  · simp [Runner.invokeSequential, h]

theorem taskResult_error {r : Runner} {t : AgentTask} {e : String}
    (h : r.invoke t.agent t.input = Except.error e) :
    taskResult r t =
      { agent := t.agent, input := t.input, output := "", success := false, error := e } := by
  unfold taskResult
  rw [h]

theorem taskResult_ok {r : Runner} {t : AgentTask} {res : AgentResult}
    (h : r.invoke t.agent t.input = Except.ok res) : taskResult r t = res := by
  unfold taskResult
  rw [h]

theorem taskResult_agent {r : Runner} (hwf : r.WellFormed) (t : AgentTask) :
    (taskResult r t).agent = t.agent := by
  cases h : r.invoke t.agent t.input with
  | error e => rw [taskResult_error h]
  | ok res => rw [taskResult_ok h]; exact runner_invoke_ok_agent hwf h

theorem invokeParallelSched_eq_foldl (r : Runner) (tasks : List AgentTask)
    (order : List Nat) :
    invokeParallelSched r tasks order =
      order.foldl (schedStep r tasks) (List.replicate tasks.length none) := rfl

theorem schedStep_length (r : Runner) (tasks : List AgentTask)
    (slots : List (Option AgentResult)) (i : Nat) :
    (schedStep r tasks slots i).length = slots.length := by
  unfold schedStep
  cases tasks.get? i <;> simp

theorem sched_foldl_length (r : Runner) (tasks : List AgentTask) :
    ∀ (order : List Nat) (slots : List (Option AgentResult)),
      (order.foldl (schedStep r tasks) slots).length = slots.length := by
  intro order
  induction order with
  | nil => intro slots; rfl
  | cons i rest ih =>
    intro slots
    rw [List.foldl_cons, ih, schedStep_length]

theorem sched_foldl_get_not_mem (r : Runner) (tasks : List AgentTask) :
    ∀ (order : List Nat) (slots : List (Option AgentResult)) (j : Nat), j ∉ order →
      (order.foldl (schedStep r tasks) slots).get? j = slots.get? j := by
  intro order
  induction order with
  | nil => intro slots j _; rfl
  | cons i rest ih =>
    intro slots j hj
    have hne : j ≠ i := fun h => hj (h ▸ List.mem_cons_self i rest)
    have hrest : j ∉ rest := fun h => hj (List.mem_cons_of_mem i h)
    rw [List.foldl_cons, ih (schedStep r tasks slots i) j hrest]
    unfold schedStep
    cases tasks.get? i with
    | none => rfl
    | some t => exact List.get?_set_ne _ _ (Ne.symm hne)

theorem sched_foldl_get_mem (r : Runner) (tasks : List AgentTask) :
    ∀ (order : List Nat) (slots : List (Option AgentResult)) (j : Nat) (t : AgentTask),
      tasks.get? j = some t → slots.length = tasks.length → j ∈ order →
      (order.foldl (schedStep r tasks) slots).get? j = some (some (taskResult r t)) := by
  intro order
  induction order with
  | nil => intro slots j t _ _ hj; simp at hj
  | cons i rest ih =>
    intro slots j t ht hlen hj
    rw [List.foldl_cons]
    by_cases hjr : j ∈ rest
    · exact ih (schedStep r tasks slots i) j t ht
        (by rw [schedStep_length]; exact hlen) hjr
    · have hji : j = i := by
        rcases List.mem_cons.1 hj with h | h
        · exact h
        · exact absurd h hjr
      subst hji
      rw [sched_foldl_get_not_mem r tasks rest _ j hjr]
      unfold schedStep
      rw [ht]
      have hjlen : j < slots.length := by
        rw [hlen]
        exact List.get?_eq_some.mp ht |>.1
      exact List.get?_set_eq_of_lt _ hjlen

theorem invokeParallelSched_eq_map (r : Runner) (tasks : List AgentTask)
    (order : List Nat) (horder : ∀ j, j < tasks.length → j ∈ order) :
    invokeParallelSched r tasks order = (tasks.map (taskResult r)).map some := by
  rw [invokeParallelSched_eq_foldl]
  apply List.ext_get?
  intro j
  by_cases hj : j < tasks.length
  · rcases hget : tasks.get? j with _ | t
    · exact absurd (List.get?_eq_none.1 hget) (by omega)
    · rw [sched_foldl_get_mem r tasks order _ j t hget (List.length_replicate _ _) (horder j hj)]
      rw [List.get?_map, List.get?_map, hget]
      rfl
  · have h1 : (order.foldl (schedStep r tasks) (List.replicate tasks.length none)).get? j
        = none := by
      apply List.get?_len_le
      rw [sched_foldl_length, List.length_replicate]
      omega
    have h2 : ((tasks.map (taskResult r)).map some).get? j = none := by
      apply List.get?_len_le
      simp
      omega
    rw [h1, h2]

theorem seqLoop_cons (r : Runner) (t : AgentTask) (rest : List AgentTask)
    (i : Nat) (ctxB : String) :
    seqLoop r (t :: rest) i ctxB =
      { task := t, ctx := ctxB, input := seqInput t i ctxB,
        result := seqResult r t (seqInput t i ctxB) } ::
        seqLoop r rest (i + 1) (seqCtx2 t ctxB (seqResult r t (seqInput t i ctxB))) := rfl

theorem seqLoop_length (r : Runner) :
    ∀ (tasks : List AgentTask) (i : Nat) (c : String),
      (seqLoop r tasks i c).length = tasks.length := by
  intro tasks
  induction tasks with
  | nil => intro i c; rfl
  | cons t rest ih =>
    intro i c
    rw [seqLoop_cons, List.length_cons, ih, List.length_cons]

theorem successContext_append (xs ys : List SeqStep) :
    successContext (xs ++ ys) = successContext xs ++ successContext ys := by
  induction xs with
  | nil => simp [successContext]
  | cons s rest ih =>
    simp only [List.cons_append, successContext, List.append_eq, ih, String.append_assoc]

theorem successContext_cons (st : SeqStep) (rest : List SeqStep) :
    successContext (st :: rest) =
      (if st.result.success then
          "\n[" ++ st.task.agent ++ "]: " ++ st.result.output ++ "\n"
        else "") ++ successContext rest := rfl

theorem seqLoop_ctx (r : Runner) :
    ∀ (tasks : List AgentTask) (i : Nat) (c : String) (j : Nat) (st : SeqStep),
      (seqLoop r tasks i c).get? j = some st →
      st.ctx = c ++ successContext ((seqLoop r tasks i c).take j) := by
  intro tasks
  induction tasks with
  | nil => intro i c j st h; simp [seqLoop] at h
  | cons t rest ih =>
    intro i c j st h
    rw [seqLoop_cons] at h ⊢
    cases j with
    | zero =>
      simp only [List.get?_cons_zero, Option.some.injEq] at h
      subst h
      simp [successContext, String.append_empty]
    | succ j =>
      rw [List.get?_cons_succ] at h
      rw [List.take_succ_cons]
      rw [ih (i + 1) _ j st h, successContext_cons]
      unfold seqCtx2
      cases hs : (seqResult r t (seqInput t i c)).success
      · simp [hs, String.append_assoc]
      · simp [hs, String.append_assoc]

theorem seqLoop_spec (r : Runner) :
    ∀ (tasks : List AgentTask) (i : Nat) (c : String) (j : Nat) (st : SeqStep),
      (seqLoop r tasks i c).get? j = some st →
      ∃ t, tasks.get? j = some t ∧ st.task = t
        ∧ st.input = seqInput t (i + j) st.ctx
        ∧ st.result = seqResult r t st.input := by
  intro tasks
  induction tasks with
  | nil => intro i c j st h; simp [seqLoop] at h
  | cons t rest ih =>
    intro i c j st h
    rw [seqLoop_cons] at h
    cases j with
    | zero =>
      simp only [List.get?_cons_zero, Option.some.injEq] at h
      subst h
      exact ⟨t, rfl, rfl, by rw [Nat.add_zero], rfl⟩
    | succ j =>
      rw [List.get?_cons_succ] at h
      obtain ⟨t2, ht2, htask, hinput, hres⟩ := ih (i + 1) _ j st h
      refine ⟨t2, ht2, htask, ?_, hres⟩
      rw [hinput]
      have harith : i + 1 + j = i + (j + 1) := by omega
      rw [harith]

theorem occursIn_ne_empty {needle hay : String} (h : occursIn needle hay)
    (hne : needle.toList ≠ []) : hay ≠ "" := by
  obtain ⟨u, v, huv⟩ := h
  intro hc
  subst huv
  have hd := congrArg String.toList hc
  rw [Filepath.toList_append, Filepath.toList_append] at hd
  exact hne (List.append_eq_nil.1 (List.append_eq_nil.1 hd).1).2

theorem successContext_contains :
    ∀ (steps : List SeqStep) (st : SeqStep), st ∈ steps → st.result.success = true →
      occursIn st.result.output (successContext steps) := by
  intro steps
  induction steps with
  | nil => intro st h; simp at h
  | cons s rest ih =>
    intro st hmem hs
    rw [successContext_cons]
    rcases List.mem_cons.1 hmem with h | h
    · subst h
      rw [if_pos hs]
      exact ⟨"\n[" ++ st.task.agent ++ "]: ",
        "\n" ++ successContext rest, by simp [String.append_assoc]⟩
    · obtain ⟨u, v, huv⟩ := ih st h hs
      exact ⟨(if s.result.success then
          "\n[" ++ s.task.agent ++ "]: " ++ s.result.output ++ "\n" else "") ++ u, v,
        by rw [huv]; simp [String.append_assoc]⟩

theorem invokeLoop_stub {a : EmbeddedAgent} {tds : List ToolDefinition} (input : String)
    (h : ∀ msgs, ∃ resp, a.llm msgs tds = Except.ok resp
      ∧ resp.toolCalls ≠ [] ∧ resp.done = false) :
    ∀ (n : Nat) (msgs : List Message),
      invokeLoop a input tds msgs n =
        (Except.ok { agent := a.name, input := input, output := "Max iterations reached",
                     success := false, error := "agent loop exceeded maximum iterations" },
         n) := by
  intro n
  induction n with
  | zero => intro msgs; rfl
  | succ n ih =>
    intro msgs
    obtain ⟨resp, hllm, hcalls, hdone⟩ := h msgs
    have hgo : (resp.toolCalls.isEmpty || resp.done) = false := by
      rw [List.isEmpty_eq_false.mpr hcalls, hdone]
      rfl
    rw [invokeLoop_succ_tools input n hllm hgo, ih]

/-! ## Claim theorems -/

/-- C1 (amended): over an absolute workspace root, `validatePath` fails for
every path whose canonical resolved form escapes the root; it additionally
(conservatively) fails for an in-root path whose first element below the
root itself begins with the two characters `..`; for every other path under
the root it succeeds and returns the resolved absolute path, whose element
sequence extends the root's. -/
theorem C1_path_containment (ts : ToolSet) (cwd p : String)
    (hws : Filepath.IsAbs ts.workspace = true) :
    (underRoot ts.workspace cwd p = false → (ts.validatePath cwd p).isOk = false)
  ∧ (underRoot ts.workspace cwd p = true →
      firstElemBelowRootDotDot ts.workspace cwd p = false →
      ts.validatePath cwd p = Except.ok (resolvedTarget ts.workspace cwd p)
      ∧ Filepath.IsAbs (resolvedTarget ts.workspace cwd p) = true
      ∧ rootFields ts.workspace <+:
          Filepath.fields (resolvedTarget ts.workspace cwd p).toList)
  ∧ (underRoot ts.workspace cwd p = true →
      firstElemBelowRootDotDot ts.workspace cwd p = true →
      (ts.validatePath cwd p).isOk = false) := by
  have heq := validatePath_eq ts cwd p hws
  refine ⟨?_, ?_, ?_⟩
  · intro hu
    have hflag : escapeFlagAt ts.workspace cwd p = true := by
      unfold escapeFlagAt
      rw [if_neg (by rw [hu]; exact Bool.false_ne_true)]
    rw [heq, if_pos hflag]
    rfl
  · intro hu hdot
    have hflag : escapeFlagAt ts.workspace cwd p = false := by
      unfold escapeFlagAt
      rw [if_pos hu, hdot]
    refine ⟨?_, resolvedTarget_isAbs hws, List.isPrefixOf_iff_prefix.1 hu⟩
    rw [heq, if_neg (by rw [hflag]; exact Bool.false_ne_true)]
  · intro hu hdot
    have hflag : escapeFlagAt ts.workspace cwd p = true := by
      unfold escapeFlagAt
      rw [if_pos hu, hdot]
    rw [heq, if_pos hflag]
    rfl

/-- C1 counterexample: `..x` resolves strictly inside the root `/w` (to
`/w/..x`), yet `validatePath` rejects it, because the relative form `..x`
merely starts with the two characters `..`. -/
theorem C1_counterexample :
    strictlyInsideRoot "/w" "/" "..x" = true
  ∧ (NewToolSet "/w").validatePath "/" "..x"
      = Except.error "path outside workspace: /w/..x" := by
  exact ⟨by decide, rfl⟩

/-- C1 witness: an escaping path is rejected, an ordinary in-root path is
accepted with the root as element prefix, and an in-root `..`-prefixed name
is conservatively rejected. -/
theorem C1_witness :
    ((NewToolSet "/w").validatePath "/" "../etc/passwd").isOk = false
  ∧ ((NewToolSet "/w").validatePath "/" "docs/a.md"
      = Except.ok (resolvedTarget "/w" "/" "docs/a.md")
      ∧ Filepath.IsAbs (resolvedTarget "/w" "/" "docs/a.md") = true
      ∧ rootFields "/w" <+:
          Filepath.fields (resolvedTarget "/w" "/" "docs/a.md").toList)
  ∧ ((NewToolSet "/w").validatePath "/" "..x").isOk = false := by
  exact ⟨(C1_path_containment (NewToolSet "/w") "/" "../etc/passwd" rfl).1 (by decide),
    (C1_path_containment (NewToolSet "/w") "/" "docs/a.md" rfl).2.1 (by decide) (by decide),
    (C1_path_containment (NewToolSet "/w") "/" "..x" rfl).2.2 (by decide) (by decide)⟩

/-- C2: against an `LLMClient` that always returns a non-empty, non-done
tool-call list without error, `Invoke` terminates after exactly the
iteration ceiling (10) of completion rounds, in a failure `AgentResult`
with a non-empty explanatory error. -/
theorem C2_iteration_ceiling (a : EmbeddedAgent) (input : String)
    (h : ∀ msgs tds, ∃ resp, a.llm msgs tds = Except.ok resp
        ∧ resp.toolCalls ≠ [] ∧ resp.done = false) :
    invoke a input = Except.ok
      { agent := a.name, input := input, output := "Max iterations reached",
        success := false, error := "agent loop exceeded maximum iterations" }
  ∧ invokeCallCount a input = maxIterations
  ∧ maxIterations = 10
  ∧ (∀ res, invoke a input = Except.ok res →
      res.success = false ∧ res.error ≠ "") := by
  have hloop := invokeLoop_stub input (fun msgs => h msgs (buildToolDefinitions a))
    maxIterations
    [{ role := "system", content := a.instructions }, { role := "user", content := input }]
  refine ⟨?_, ?_, rfl, ?_⟩
  · unfold invoke
    rw [hloop]
  · unfold invokeCallCount
    rw [hloop]
  · intro res hres
    unfold invoke at hres
    rw [hloop] at hres
    simp only [Except.ok.injEq] at hres
    subst hres
    exact ⟨rfl, show ("agent loop exceeded maximum iterations" : String) ≠ "" by decide⟩

/-- C2 witness at a concrete stub agent. -/
theorem C2_witness :
    invoke c2StubAgent "task" = Except.ok
      { agent := "stub", input := "task", output := "Max iterations reached",
        success := false, error := "agent loop exceeded maximum iterations" }
  ∧ invokeCallCount c2StubAgent "task" = 10 := by
  have h := C2_iteration_ceiling c2StubAgent "task"
    (fun msgs tds => ⟨_, rfl, by decide, rfl⟩)
  exact ⟨h.1, h.2.1⟩

/-- C5 (amended): an LLM completion failure is surfaced as an error return
from `EmbeddedAgent.Invoke` and `Runner.Invoke` — unlike iteration-ceiling
exhaustion and unknown tool names, which are folded — while parallel and
sequential batches fold it into that task's failed `AgentResult` with a
non-empty error. -/
theorem C5_llm_failure_error_return (r : Runner) (a : EmbeddedAgent)
    (agentName input e : String)
    (hlook : r.agents.lookup agentName = some a)
    (h : a.llm [{ role := "system", content := a.instructions },
                { role := "user", content := input }] (buildToolDefinitions a)
        = Except.error e) :
    invoke a input = Except.error ("LLM completion failed: " ++ e)
  ∧ r.invoke agentName input
      = Except.error ("agent invocation failed: " ++ ("LLM completion failed: " ++ e))
  ∧ r.invokeParallel [{ agent := agentName, input := input }]
      = Except.ok [({ agent := agentName, input := input, output := "",
                      success := false,
                      error := "agent invocation failed: "
                        ++ ("LLM completion failed: " ++ e) } : AgentResult)]
  ∧ r.invokeSequential [{ agent := agentName, input := input }]
      = Except.ok [({ agent := agentName, input := input, output := "",
                      success := false,
                      error := "agent invocation failed: "
                        ++ ("LLM completion failed: " ++ e) } : AgentResult)]
  ∧ ("agent invocation failed: " ++ ("LLM completion failed: " ++ e)) ≠ "" := by
  have hinv : invoke a input = Except.error ("LLM completion failed: " ++ e) := by
    unfold invoke maxIterations
    rw [show (10 : Nat) = 9 + 1 from rfl, invokeLoop_succ_error input 9 h]
  have hrun : r.invoke agentName input
      = Except.error ("agent invocation failed: " ++ ("LLM completion failed: " ++ e)) := by
    rw [runner_invoke_some input hlook, hinv]
  have htask : taskResult r { agent := agentName, input := input }
      = { agent := agentName, input := input, output := "", success := false,
          error := "agent invocation failed: " ++ ("LLM completion failed: " ++ e) } :=
    taskResult_error hrun
  refine ⟨hinv, hrun, ?_, ?_, append_ne_empty (by decide) _⟩
  · rw [invokeParallel_eq, List.map_cons, List.map_nil, htask]
  · have hsr : seqResult r { agent := agentName, input := input }
        (seqInput { agent := agentName, input := input } 0 "")
        = { agent := agentName, input := input, output := "", success := false,
            error := "agent invocation failed: " ++ ("LLM completion failed: " ++ e) } := by
      unfold seqResult
      rw [show seqInput { agent := agentName, input := input } 0 "" = input from rfl, hrun]
    rw [invokeSequential_eq, seqLoop_cons, hsr]
    rfl

/-- C5 counterexample: with an LLM client whose `Complete` fails, the
invocation returns an error — no `AgentResult` is produced at the
`EmbeddedAgent.Invoke` / `Runner.Invoke` level. -/
theorem C5_counterexample :
    invoke c5Agent "task" = Except.error "LLM completion failed: boom"
  ∧ Runner.invoke { agents := [("a", c5Agent)] } "a" "task"
      = Except.error "agent invocation failed: LLM completion failed: boom"
  ∧ (invoke c5Agent "task").isOk = false := by
  exact ⟨rfl, rfl, rfl⟩

/-- C5 witness at the concrete failing agent. -/
theorem C5_witness :
    invoke c5Agent "task" = Except.error ("LLM completion failed: " ++ "boom")
  ∧ Runner.invokeParallel { agents := [("a", c5Agent)] }
      [{ agent := "a", input := "task" }]
      = Except.ok [({ agent := "a", input := "task", output := "", success := false,
                      error := "agent invocation failed: "
                        ++ ("LLM completion failed: " ++ "boom") } : AgentResult)] := by
  have h := C5_llm_failure_error_return { agents := [("a", c5Agent)] } c5Agent
    "a" "task" "boom" rfl rfl
  exact ⟨h.1, h.2.2.1⟩

/-- C6: a tool call whose name matches none of the agent's tools produces a
`tool`-role message carrying the stringified unknown-tool error, correlated
by the call's id, and the loop proceeds to its next round rather than
terminating the invocation. -/
theorem C6_unknown_tool (a : EmbeddedAgent) (input : String)
    (tds : List ToolDefinition) (msgs : List Message) (n : Nat)
    (resp : CompletionResponse) (tc : ToolCall)
    (hllm : a.llm msgs tds = Except.ok resp)
    (hcalls : resp.toolCalls ≠ []) (hdone : resp.done = false)
    (hmem : tc ∈ resp.toolCalls)
    (hunknown : ∀ t ∈ a.tools, t.name ≠ tc.name) :
    executeTool a tc = Except.error ("unknown tool: " ++ tc.name)
  ∧ toolResultMessage tc (executeTool a tc)
      = { role := "tool", content := "Error: " ++ ("unknown tool: " ++ tc.name),
          name := tc.name, toolID := tc.id }
  ∧ invokeLoop a input tds msgs (n + 1)
      = ((invokeLoop a input tds
            ((msgs ++ [{ role := "assistant", content := resp.content }])
              ++ resp.toolCalls.map (fun c => toolResultMessage c (executeTool a c))) n).1,
         (invokeLoop a input tds
            ((msgs ++ [{ role := "assistant", content := resp.content }])
              ++ resp.toolCalls.map (fun c => toolResultMessage c (executeTool a c))) n).2
           + 1) := by
  have hexec : executeTool a tc = Except.error ("unknown tool: " ++ tc.name) := by
    unfold executeTool
    rw [List.find?_eq_none.mpr (fun t ht hb => hunknown t ht (eq_of_beq hb))]
  have hgo : (resp.toolCalls.isEmpty || resp.done) = false := by
    rw [List.isEmpty_eq_false.mpr hcalls, hdone]
    rfl
  exact ⟨hexec, by rw [hexec]; rfl, invokeLoop_succ_tools input n hllm hgo⟩

/-- C6 witness at the concrete unknown-tool call. -/
theorem C6_witness :
    executeTool c6Agent c6Call = Except.error ("unknown tool: " ++ "nope")
  ∧ toolResultMessage c6Call (executeTool c6Agent c6Call)
      = { role := "tool", content := "Error: " ++ ("unknown tool: " ++ "nope"),
          name := "nope", toolID := "call-1" } := by
  have h := C6_unknown_tool c6Agent "in" [] [] 0 c6Resp c6Call rfl (by decide) rfl
    (List.mem_cons_self _ _) (fun t ht => absurd ht (List.not_mem_nil t))
  exact ⟨h.1, h.2.1⟩

/-- C7: a started process's non-zero exit is data in `CommandResult`
(stdout and stderr captured separately, working directory the workspace
root), `Success` holds exactly for exit code zero, and only a failure to
start the process is an error return. -/
theorem C7_run_command (env : ExecEnv) (ts : ToolSet) (command : String)
    (args : List String) :
    (∀ code out errout, env command args ts.workspace = ProcOutcome.exited code out errout →
        ts.RunCommand env command args
          = Except.ok { command := command, args := args, stdout := out,
                        stderr := errout, exitCode := code })
  ∧ (∀ msg, env command args ts.workspace = ProcOutcome.startFailure msg →
        ts.RunCommand env command args
          = Except.error ("command execution failed: " ++ msg))
  ∧ (∀ res : CommandResult, res.success = true ↔ res.exitCode = 0)
  ∧ (∀ shellCmd, ts.RunShell env shellCmd = ts.RunCommand env "sh" ["-c", shellCmd]) := by
  refine ⟨?_, ?_, ?_, fun _ => rfl⟩
  · intro code out errout h
    unfold ToolSet.RunCommand
    rw [h]
  · intro msg h
    unfold ToolSet.RunCommand
    rw [h]
  · intro res
    unfold CommandResult.success
    exact beq_iff_eq

/-- C7 witness: a non-zero exit as data, a start failure as error, and
`success` false at exit code 3. -/
theorem C7_witness :
    (NewToolSet "/w").RunShell c7Env "false"
      = Except.ok { command := "sh", args := ["-c", "false"],
                    stdout := "ran in /w", stderr := "err-output", exitCode := 3 }
  ∧ (NewToolSet "/w").RunCommand c7Env "nosuch" []
      = Except.error ("command execution failed: " ++ "exec format error")
  ∧ ¬ (({ command := "sh", args := ["-c", "false"], stdout := "ran in /w",
          stderr := "err-output", exitCode := 3 } : CommandResult).success = true) := by
  have h := C7_run_command c7Env (NewToolSet "/w") "sh" ["-c", "false"]
  have h2 := C7_run_command c7Env (NewToolSet "/w") "nosuch" []
  refine ⟨?_, h2.2.1 "exec format error" rfl, ?_⟩
  · rw [h.2.2.2 "false"]
    exact h.1 3 "ran in /w" "err-output" rfl
  · intro hc
    have := (h.2.2.1 _).1 hc
    cases this

/-- C10: an empty task list yields an empty result list and no error, for
both batch modes. -/
theorem C10_empty_batch (r : Runner) :
    r.invokeParallel [] = Except.ok [] ∧ r.invokeSequential [] = Except.ok [] :=
  ⟨rfl, rfl⟩

/-- C3: a parallel batch of N tasks returns exactly N results in task
order — slot `i` belongs to task `i` whatever the completion order — a
per-task failure (an unknown agent included) becomes a failed
`AgentResult` with a non-empty error in that slot, and the batch call
itself returns no error. -/
theorem C3_parallel_order (r : Runner) (tasks : List AgentTask) (order : List Nat)
    (hwf : r.WellFormed)
    (horder : ∀ j, j < tasks.length → j ∈ order) :
    ∃ results, r.invokeParallel tasks = Except.ok results
      ∧ results.length = tasks.length
      ∧ (∀ i t, tasks.get? i = some t →
          ∃ res, results.get? i = some res
            ∧ res.agent = t.agent
            ∧ (∀ e, r.invoke t.agent t.input = Except.error e →
                res.success = false ∧ res.error ≠ ""))
      ∧ invokeParallelSched r tasks order = results.map some := by
  refine ⟨tasks.map (taskResult r), invokeParallel_eq r tasks, List.length_map tasks _, ?_,
    invokeParallelSched_eq_map r tasks order horder⟩
  intro i t ht
  refine ⟨taskResult r t, ?_, taskResult_agent hwf t, ?_⟩
  · rw [List.get?_map, ht]
    rfl
  · intro e he
    rw [taskResult_error he]
    exact ⟨rfl, runner_invoke_error_ne he⟩

/-- C3 witness: a concrete three-task batch (with an unknown agent in the
middle) run under a scrambled completion order. -/
theorem C3_witness :
    ∃ results, c3Runner.invokeParallel c3Tasks = Except.ok results
      ∧ results.length = c3Tasks.length
      ∧ (∀ i t, c3Tasks.get? i = some t →
          ∃ res, results.get? i = some res
            ∧ res.agent = t.agent
            ∧ (∀ e, c3Runner.invoke t.agent t.input = Except.error e →
                res.success = false ∧ res.error ≠ ""))
      ∧ invokeParallelSched c3Runner c3Tasks [2, 0, 1] = results.map some := by
  refine C3_parallel_order c3Runner c3Tasks [2, 0, 1] ?_ ?_
  · intro pr hpr
    simp only [c3Runner, List.mem_cons, List.not_mem_nil, or_false] at hpr
    rcases hpr with h | h <;> subst h <;> rfl
  · intro j hj
    simp only [c3Tasks, List.length_cons, List.length_nil] at hj
    interval_cases j <;> simp

theorem entry_toList_ne_nil (agent out : String) :
    ("\n[" ++ agent ++ "]: " ++ out ++ "\n").toList ≠ [] := by
  intro h
  simp only [Filepath.toList_append, List.append_eq_nil] at h
  exact absurd h.1.1.1.1 (by decide)

theorem successContext_contains_entry :
    ∀ (steps : List SeqStep) (st : SeqStep), st ∈ steps → st.result.success = true →
      occursIn ("\n[" ++ st.task.agent ++ "]: " ++ st.result.output ++ "\n")
        (successContext steps) := by
  intro steps
  induction steps with
  | nil => intro st h; simp at h
  | cons s rest ih =>
    intro st hmem hs
    rw [successContext_cons]
    rcases List.mem_cons.1 hmem with h | h
    · subst h
      rw [if_pos hs]
      exact ⟨"", successContext rest, by simp [String.append_assoc]⟩
    · obtain ⟨u, v, huv⟩ := ih st h hs
      exact ⟨(if s.result.success then
          "\n[" ++ s.task.agent ++ "]: " ++ s.result.output ++ "\n" else "") ++ u, v,
        by rw [huv]; simp [String.append_assoc]⟩

theorem occursIn_of_entry {agent out ctx : String}
    (h : occursIn ("\n[" ++ agent ++ "]: " ++ out ++ "\n") ctx) : occursIn out ctx := by
  obtain ⟨u, v, huv⟩ := h
  exact ⟨u ++ ("\n[" ++ agent ++ "]: "), "\n" ++ v, by rw [huv]; simp [String.append_assoc]⟩

/-- C4 (amended): in `InvokeSequential` the accumulated context block is
exactly the concatenation of the successful steps' entries.  After a
successful step `i`, every later step `j` gets the
`Previous context:\n<accumulated>\n\nCurrent task:\n<input>` effective
input whose accumulated block contains step `i`'s output.  A failed step
does not halt the sequence — its failed `AgentResult` is recorded in its
slot — and leaves the context block unchanged, so a failed step's output is
never incorporated into later effective inputs (though the same text can
still appear there when a successful step or a task input coincides with
it). -/
theorem C4_sequential_context (r : Runner) (tasks : List AgentTask)
    (i j : Nat) (sti stj : SeqStep) (tj : AgentTask)
    (hi : (seqLoop r tasks 0 "").get? i = some sti)
    (hj : (seqLoop r tasks 0 "").get? j = some stj)
    (htj : tasks.get? j = some tj)
    (hij : i < j) :
    (sti.result.success = true →
       stj.input = "Previous context:\n" ++ stj.ctx ++ "\n\nCurrent task:\n" ++ tj.input
       ∧ occursIn sti.result.output stj.ctx)
  ∧ stj.ctx = successContext ((seqLoop r tasks 0 "").take j)
  ∧ (sti.result.success = false →
      ∀ st2, (seqLoop r tasks 0 "").get? (i + 1) = some st2 → st2.ctx = sti.ctx)
  ∧ r.invokeSequential tasks
      = Except.ok ((seqLoop r tasks 0 "").map (fun st => st.result))
  ∧ ((seqLoop r tasks 0 "").map (fun st => st.result)).get? i = some sti.result := by
  have hctxj : stj.ctx = successContext ((seqLoop r tasks 0 "").take j) :=
    seqLoop_ctx r tasks 0 "" j stj hj
  have hctxi : sti.ctx = successContext ((seqLoop r tasks 0 "").take i) :=
    seqLoop_ctx r tasks 0 "" i sti hi
  refine ⟨?_, hctxj, ?_, invokeSequential_eq r tasks, ?_⟩
  · intro hs
    have hmem : sti ∈ (seqLoop r tasks 0 "").take j := by
      apply @List.get?_mem _ _ i
      rw [List.get?_take hij]
      exact hi
    have hentry := successContext_contains_entry _ sti hmem hs
    rw [← hctxj] at hentry
    have hne : stj.ctx ≠ "" :=
      occursIn_ne_empty hentry (entry_toList_ne_nil sti.task.agent sti.result.output)
    obtain ⟨t, ht, _, hinput, _⟩ := seqLoop_spec r tasks 0 "" j stj hj
    have htt : t = tj := by
      rw [ht] at htj
      exact Option.some.inj htj
    subst htt
    refine ⟨?_, occursIn_of_entry hentry⟩
    rw [hinput]
    unfold seqInput
    rw [if_pos ⟨hne, by omega⟩]
  · intro hs st2 h2
    have hctx2 : st2.ctx = successContext ((seqLoop r tasks 0 "").take (i + 1)) :=
      seqLoop_ctx r tasks 0 "" (i + 1) st2 h2
    have hi2 : (seqLoop r tasks 0 "")[i]? = some sti := by
      rw [← List.get?_eq_getElem?]
      exact hi
    rw [hctx2, List.take_succ, hi2, hctxi, successContext_append]
    have hone : successContext (Option.toList (some sti)) = "" := by
      simp [successContext, hs]
    rw [hone, String.append_empty]
  · rw [List.get?_map, hi]
    rfl

/-- C4 counterexample: task 0 fails (iteration ceiling) with output
`Max iterations reached`; the context is never updated from that failure,
yet task 2's effective input does contain that very string, because the
successful task 1 emitted the same text — so "later inputs do not contain
the failed task's output" is false as stated. -/
theorem C4_counterexample :
    ((seqLoop c4CexRunner c4CexTasks 0 "").get? 0).map
        (fun st => (st.result.success, st.result.output))
      = some (false, "Max iterations reached")
  ∧ ((seqLoop c4CexRunner c4CexTasks 0 "").get? 2).map (fun st => st.input)
      = some "Previous context:\n\n[s]: Max iterations reached\n\n\nCurrent task:\nt3"
  ∧ occursIn "Max iterations reached"
      "Previous context:\n\n[s]: Max iterations reached\n\n\nCurrent task:\nt3" := by
  refine ⟨rfl, rfl, ⟨"Previous context:\n\n[s]: ", "\n\n\nCurrent task:\nt3", rfl⟩⟩

/-- C4 witness: on a concrete two-task chain whose first task succeeds,
task 1's effective prompt is the `Previous context` form and its context
block contains task 0's output. -/
theorem C4_witness :
    c4Step1.input
      = "Previous context:\n" ++ c4Step1.ctx ++ "\n\nCurrent task:\n" ++ "t2"
  ∧ occursIn c4Step0.result.output c4Step1.ctx
  ∧ c4Runner.invokeSequential c4Tasks
      = Except.ok ((seqLoop c4Runner c4Tasks 0 "").map (fun st => st.result)) := by
  have h := C4_sequential_context c4Runner c4Tasks 0 1 c4Step0 c4Step1
    { agent := "y", input := "t2" } rfl rfl rfl (by omega)
  exact ⟨(h.1 rfl).1, (h.1 rfl).2, h.2.2.2.1⟩

/-- C8: a line that fails to parse as JSON yields exactly one `ParseError`
(-32700) response keyed to a null id and the read loop continues with the
next line; feeding one malformed line then one well-formed `tools/list`
request yields exactly the `ParseError` response and the valid `tools/list`
response, in that order. -/
theorem C8_protocol_resilience (decode : String → Except String Request) (s : Server)
    (bad good e : String) (req : Request)
    (hbad : bad ≠ "") (hgood : good ≠ "")
    (hdecbad : decode bad = Except.error e)
    (hdecgood : decode good = Except.ok req)
    (hmethod : req.method = "tools/list") :
    (∀ (line err : String) (rest : List String), line ≠ "" →
        decode line = Except.error err →
        serve decode s (line :: rest)
          = errorResponse none ErrParseErrorCode "Parse error" (some err)
              :: serve decode s rest)
  ∧ serve decode s [bad, good]
      = [errorResponse none ErrParseErrorCode "Parse error" (some e),
         { jsonrpc := "2.0", id := req.id,
           result := some (ResultVal.toolsList (toolCatalog s.runner)), error := none }]
  ∧ ErrParseErrorCode = -32700 := by
  have hstep : ∀ (line err : String) (rest : List String), line ≠ "" →
      decode line = Except.error err →
      serve decode s (line :: rest)
        = errorResponse none ErrParseErrorCode "Parse error" (some err)
            :: serve decode s rest := by
    intro line err rest hline hdec
    simp only [serve]
    rw [if_neg hline, hdec]
  refine ⟨hstep, ?_, rfl⟩
  rw [hstep bad e [good] hbad hdecbad]
  obtain ⟨jr, rid, m, pp⟩ := req
  have hm : m = "tools/list" := hmethod
  subst hm
  have h2 : serve decode s [good]
      = [{ jsonrpc := "2.0", id := rid,
           result := some (ResultVal.toolsList (toolCatalog s.runner)),
           error := none }] := by
    simp only [serve]
    rw [if_neg hgood, hdecgood]
    rfl
  rw [h2]

/-- C8 witness: one malformed line then one `tools/list` line. -/
theorem C8_witness :
    serve c8Decode c8Server ["not json", "good"]
      = [errorResponse none ErrParseErrorCode "Parse error" (some "invalid character"),
         { jsonrpc := "2.0", id := some "7",
           result := some (ResultVal.toolsList (toolCatalog c8Server.runner)),
           error := none }] := by
  have h := C8_protocol_resilience c8Decode c8Server "not json" "good"
    "invalid character" c8Req (by decide) (by decide) rfl rfl rfl
  exact h.2.1

/-- C9: `ReadFile` fails when the validated target is a directory; a file
larger than the configured ceiling (default `10 * 1024 * 1024` bytes) is an
error carrying no content; an in-limit regular file is returned whole. -/
theorem C9_read_file (fs : FileSystem) (ts : ToolSet) (cwd path absPath : String)
    (hval : ts.validatePath cwd path = Except.ok absPath) :
    (fs absPath = some FSEntry.dir →
       ts.ReadFile fs cwd path = Except.error ("path is a directory: " ++ path))
  ∧ (∀ content, fs absPath = some (FSEntry.file content) →
      ((content.length : Int) > ts.maxFileSize →
         ts.ReadFile fs cwd path
           = Except.error ("file too large: " ++ toString content.length
               ++ " bytes (max " ++ toString ts.maxFileSize ++ ")"))
      ∧ ((content.length : Int) ≤ ts.maxFileSize →
         ts.ReadFile fs cwd path = Except.ok content))
  ∧ (∀ ws, (NewToolSet ws).maxFileSize = 10 * 1024 * 1024) := by
  have hred : ts.ReadFile fs cwd path = (match fs absPath with
      | none => Except.error "cannot access file"
      | some FSEntry.dir => Except.error ("path is a directory: " ++ path)
      | some (FSEntry.file content) =>
        if (content.length : Int) > ts.maxFileSize then
          Except.error ("file too large: " ++ toString content.length
            ++ " bytes (max " ++ toString ts.maxFileSize ++ ")")
        else Except.ok content) := by
    unfold ToolSet.ReadFile
    rw [hval]
  refine ⟨?_, ?_, fun _ => rfl⟩
  · intro hdir
    rw [hred, hdir]
  · intro content hfile
    constructor
    · intro hbig
      rw [hred, hfile]
      show (if (content.length : Int) > ts.maxFileSize then
          Except.error ("file too large: " ++ toString content.length
            ++ " bytes (max " ++ toString ts.maxFileSize ++ ")")
        else Except.ok content) = _
      rw [if_pos hbig]
    · intro hsmall
      rw [hred, hfile]
      show (if (content.length : Int) > ts.maxFileSize then
          Except.error ("file too large: " ++ toString content.length
            ++ " bytes (max " ++ toString ts.maxFileSize ++ ")")
        else Except.ok content) = _
      rw [if_neg (not_lt.mpr hsmall)]

/-- C9 witness: whole-content read, directory rejection, and (with the
ceiling lowered to 3 bytes) the file-too-large error. -/
theorem C9_witness :
    ToolSet.ReadFile c9FS (NewToolSet "/w") "/" "a.txt" = Except.ok "hello"
  ∧ ToolSet.ReadFile c9FS (NewToolSet "/w") "/" "d"
      = Except.error ("path is a directory: " ++ "d")
  ∧ ToolSet.ReadFile c9FS ((NewToolSet "/w").SetMaxFileSize 3) "/" "a.txt"
      = Except.error ("file too large: " ++ toString ("hello".length)
          ++ " bytes (max " ++ toString ((NewToolSet "/w").SetMaxFileSize 3).maxFileSize ++ ")")
  ∧ (NewToolSet "/w").maxFileSize = 10 * 1024 * 1024 := by
  have h1 := C9_read_file c9FS (NewToolSet "/w") "/" "a.txt" "/w/a.txt" rfl
  have h2 := C9_read_file c9FS (NewToolSet "/w") "/" "d" "/w/d" rfl
  have h3 := C9_read_file c9FS ((NewToolSet "/w").SetMaxFileSize 3) "/" "a.txt" "/w/a.txt" rfl
  exact ⟨(h1.2.1 "hello" rfl).2 (by decide), h2.1 rfl,
    (h3.2.1 "hello" rfl).1 (by decide), rfl⟩

end AgentKit
